import Mathlib

/-!
Shallow embedding of the `nostalgic` settings registry
(`src/nostalgic/nostalgic.py`) together with the standard-library behavior
it relies on: the `json` scalar codec (`json.dumps` / `json.loads`) and the
`configparser` machinery used by `Configuration.read` / `Configuration.write`
(option-name lowercasing via the default `optionxform`, and the default
`BasicInterpolation` value processing, including its `before_set` syntax
check and `before_get` expansion).

Modelling conventions:
* Python values that the registry persists are modelled by the JSON scalar
  subset `JValue` (null, booleans, arbitrary-precision integers, strings).
  Floats, lists and dicts are outside the modelled subset: the model decoder
  returns `none` where CPython would build such a value.
* External components touched by getter/setter hooks are modelled by a state
  type `σ`: a getter is a pure function `σ → JValue` (the spec stipulates
  getters are side-effect free) and a setter is `JValue → σ → σ`.
* The Python `dict` of settings is modelled by an association list in
  insertion order; `assocSet` mirrors `dict.__setitem__` (replace in place,
  append when fresh).
* Exceptions are modelled by an `Option String` error channel carrying the
  exception name; partially-performed mutations before the raise are kept,
  as in Python.
-/

/-- JSON scalar values, the modelled subset of what `json.dumps` /
`json.loads` handle. -/
inductive JValue : Type where
  | null : JValue
  | bool : Bool → JValue
  | int : Int → JValue
  | str : String → JValue
deriving DecidableEq, Repr

/-- Association-list lookup by key, mirroring a Python dict read
(first — and in a dict, only — binding wins). -/
def assocGet {α : Type} : List (String × α) → String → Option α
  | [], _ => none
  | (k', v) :: r, k => if k' = k then some v else assocGet r k

/-- Association-list write mirroring `d[k] = v` on a Python dict: an existing
key keeps its position and gets the new value; a fresh key is appended. -/
def assocSet {α : Type} : List (String × α) → String → α → List (String × α)
  | [], k, v => [(k, v)]
  | (k', v') :: r, k, v =>
    if k' = k then (k, v) :: r else (k', v') :: assocSet r k v

/-- Decimal digit character, `chr(48 + d)` for a digit value `d < 10`. -/
def digitChar (d : Nat) : Char := Char.ofNat (48 + d % 10)

/-- Decimal digits of a natural number, most significant first, produced with
structural fuel so that the definition reduces by kernel computation.  With
`fuel ≥ n + 1` this is the standard decimal representation (no leading
zeros), matching CPython `repr` of a non-negative int. -/
def natDigits : Nat → Nat → List Char
  | 0, _ => []
  | fuel + 1, n =>
    if n < 10 then [digitChar n]
    else natDigits fuel (n / 10) ++ [digitChar (n % 10)]

/-- Decimal representation of a natural number. -/
def natRepr (n : Nat) : List Char := natDigits (n + 1) n

/-- Decimal representation of an integer, matching CPython `repr` on `int`
(and hence `json.dumps` on `int`). -/
def intRepr : Int → List Char
  | Int.ofNat n => natRepr n
  | Int.negSucc n => '-' :: natRepr (n + 1)

/-- Lowercase hexadecimal digit for `d < 16`, as produced by the CPython
format `%04x`. -/
def hexDigitChar (d : Nat) : Char :=
  if d % 16 < 10 then Char.ofNat (48 + d % 16) else Char.ofNat (87 + d % 16)

/-- Four-digit lowercase hexadecimal rendering of `n % 0x10000`, the body of
a `\uXXXX` escape. -/
def hex4 (n : Nat) : List Char :=
  [hexDigitChar (n / 4096 % 16), hexDigitChar (n / 256 % 16),
   hexDigitChar (n / 16 % 16), hexDigitChar (n % 16)]

/-- Escape of one character under `json.dumps` with the default
`ensure_ascii=True` (CPython `py_encode_basestring_ascii`): backslash,
double quote and the five short control escapes get two-character escapes,
printable ASCII other than those stays literal, everything else becomes
`\uXXXX` (lowercase hex), with a UTF-16 surrogate pair for code points
above `0xFFFF`. -/
def escapeChar (c : Char) : List Char :=
  if c = '\\' then ['\\', '\\']
  else if c = '\"' then ['\\', '\"']
  else if c = '\x08' then ['\\', 'b']
  else if c = '\x09' then ['\\', 't']
  else if c = '\x0a' then ['\\', 'n']
  else if c = '\x0c' then ['\\', 'f']
  else if c = '\x0d' then ['\\', 'r']
  else if 0x20 ≤ c.toNat ∧ c.toNat ≤ 0x7e then [c]
  else if c.toNat < 0x10000 then '\\' :: 'u' :: hex4 c.toNat
  else
    '\\' :: 'u' :: hex4 (0xd800 + (c.toNat - 0x10000) / 0x400) ++
      ('\\' :: 'u' :: hex4 (0xdc00 + (c.toNat - 0x10000) % 0x400))

/-- String-body escape under `json.dumps` (concatenation of the per-character
escapes). -/
def escapeList : List Char → List Char
  | [] => []
  | c :: r => escapeChar c ++ escapeList r

/-- The model of `json.dumps` on the scalar subset: `null`, `true`, `false`,
decimal integers, and double-quoted strings with `ensure_ascii` escaping. -/
def jsonDumps : JValue → String
  | JValue.null => "null"
  | JValue.bool true => "true"
  | JValue.bool false => "false"
  | JValue.int i => String.mk (intRepr i)
  | JValue.str s => String.mk ('\"' :: escapeList s.data ++ ['\"'])

/-- Value of one hexadecimal digit character (either case), as accepted in a
`\uXXXX` escape by the CPython `json` scanner. -/
def hexVal (c : Char) : Option Nat :=
  if 48 ≤ c.toNat ∧ c.toNat ≤ 57 then some (c.toNat - 48)
  else if 97 ≤ c.toNat ∧ c.toNat ≤ 102 then some (c.toNat - 87)
  else if 65 ≤ c.toNat ∧ c.toNat ≤ 70 then some (c.toNat - 55)
  else none

/-- Value of a four-hex-digit group. -/
def hexVal4 (a b c d : Char) : Option Nat :=
  match hexVal a, hexVal b, hexVal c, hexVal d with
  | some x, some y, some z, some w => some (4096 * x + 256 * y + 16 * z + w)
  | _, _, _, _ => none

/-- The two-character escapes of the CPython `json` scanner `BACKSLASH`
table. -/
def unescapeChar (c : Char) : Option Char :=
  if c = '\"' then some '\"'
  else if c = '\\' then some '\\'
  else if c = '/' then some '/'
  else if c = 'b' then some '\x08'
  else if c = 'f' then some '\x0c'
  else if c = 'n' then some '\x0a'
  else if c = 'r' then some '\x0d'
  else if c = 't' then some '\x09'
  else none


/-- Decoding step for one escape sequence introduced by `\u`: four hex
digits, with UTF-16 surrogate-pair recombination (CPython `py_scanstring`).
A lone surrogate, which CPython would keep as a surrogate character of the
Python string but a Lean `Char` (a Unicode scalar value) cannot represent,
is rejected; such inputs are never produced by `jsonDumps`.  Returns the
decoded character and the unconsumed remainder. -/
def parseUStep : List Char → Option (Char × List Char)
  | a :: b :: c2 :: d :: r3 =>
    match hexVal4 a b c2 d with
    | none => none
    | some n =>
      if 0xd800 ≤ n ∧ n ≤ 0xdbff then
        match r3 with
        | e2 :: u2 :: a2 :: b2 :: c3 :: d2 :: r4 =>
          if e2 = '\\' ∧ u2 = 'u' then
            match hexVal4 a2 b2 c3 d2 with
            | some m =>
              if 0xdc00 ≤ m ∧ m ≤ 0xdfff then
                some (Char.ofNat (0x10000 + (n - 0xd800) * 0x400 + (m - 0xdc00)), r4)
              else none
            | none => none
          else none
        | _ => none
      else if 0xdc00 ≤ n ∧ n ≤ 0xdfff then none
      else some (Char.ofNat n, r3)
  | _ => none

/-- Decoding step for the characters after a backslash: either a `\uXXXX`
escape or one of the two-character escapes of the `BACKSLASH` table.
Returns the decoded character and the unconsumed remainder. -/
def parseEscapeStep : List Char → Option (Char × List Char)
  | [] => none
  | e :: r2 =>
    if e = 'u' then parseUStep r2
    else (unescapeChar e).map (fun u => (u, r2))

/-- Every successful escape step consumes at least the character after the
backslash. -/
theorem parseEscapeStep_length {l : List Char} {u : Char} {r2 : List Char}
    (h : parseEscapeStep l = some (u, r2)) : r2.length < l.length := by
  match l with
  | [] => simp [parseEscapeStep] at h
  | e :: r =>
    simp only [parseEscapeStep] at h
    by_cases he : e = 'u'
    · rw [if_pos he] at h
      match r with
      | [] => simp [parseUStep] at h
      | a :: b :: c2 :: d :: r3 =>
        simp only [parseUStep] at h
        cases hv : hexVal4 a b c2 d with
        | none => rw [hv] at h; simp at h
        | some n =>
          rw [hv] at h
          simp only at h
          by_cases h1 : 0xd800 ≤ n ∧ n ≤ 0xdbff
          · rw [if_pos h1] at h
            match r3 with
            | [] => simp at h
            | [x1] => simp at h
            | [x1, x2] => simp at h
            | [x1, x2, x3] => simp at h
            | [x1, x2, x3, x4] => simp at h
            | [x1, x2, x3, x4, x5] => simp at h
            | e2 :: u2 :: a2 :: b2 :: c3 :: d2 :: r4 =>
              dsimp only at h
              by_cases h2 : e2 = '\\' ∧ u2 = 'u'
              · rw [if_pos h2] at h
                cases hv2 : hexVal4 a2 b2 c3 d2 with
                | none => rw [hv2] at h; simp at h
                | some m =>
                  rw [hv2] at h
                  simp only at h
                  by_cases h3 : 0xdc00 ≤ m ∧ m ≤ 0xdfff
                  · rw [if_pos h3] at h
                    simp only [Option.some.injEq, Prod.mk.injEq] at h
                    obtain ⟨-, rfl⟩ := h
                    simp only [List.length_cons]
                    omega
                  · rw [if_neg h3] at h; simp at h
              · rw [if_neg h2] at h; simp at h
          · rw [if_neg h1] at h
            by_cases h2 : 0xdc00 ≤ n ∧ n ≤ 0xdfff
            · rw [if_pos h2] at h; simp at h
            · rw [if_neg h2] at h
              simp only [Option.some.injEq, Prod.mk.injEq] at h
              obtain ⟨-, rfl⟩ := h
              simp only [List.length_cons]
              omega
      | [a] => simp [parseUStep] at h
      | [a, b] => simp [parseUStep] at h
      | [a, b, c2] => simp [parseUStep] at h
    · rw [if_neg he] at h
      cases hu : unescapeChar e with
      | none => rw [hu] at h; simp at h
      | some u2 =>
        rw [hu] at h
        simp only [Option.map_some', Option.some.injEq, Prod.mk.injEq] at h
        obtain ⟨-, rfl⟩ := h
        simp only [List.length_cons]
        omega

/-- String-body scanner of `json.loads` (CPython `py_scanstring` with the
default `strict=True`): literal characters up to the closing quote, raw
control characters rejected, backslash escapes decoded via
`parseEscapeStep`.  Returns the decoded body and the characters after the
closing quote. -/
def parseStringBody : List Char → Option (List Char × List Char)
  | [] => none
  | c :: r =>
    if c = '\"' then some ([], r)
    else if c = '\\' then
      match h : parseEscapeStep r with
      | some (u, r2) => (parseStringBody r2).map (fun p => (u :: p.1, p.2))
      | none => none
    else if c.toNat < 0x20 then none
    else (parseStringBody r).map (fun p => (c :: p.1, p.2))
termination_by l => l.length
decreasing_by
  · exact Nat.lt_succ_of_lt (parseEscapeStep_length h)
  · simp
def parseDigits : List Char → Nat → Nat × List Char
  | [], acc => (acc, [])
  | c :: r, acc =>
    if 48 ≤ c.toNat ∧ c.toNat ≤ 57 then parseDigits r (acc * 10 + (c.toNat - 48))
    else (acc, c :: r)

/-- Unsigned integer part of the `json` number regex `(0|[1-9]\d*)`: a single
leading zero matches alone, otherwise a nonzero digit starts a greedy run. -/
def parseUInt : List Char → Option (Nat × List Char)
  | [] => none
  | c :: r =>
    if c.toNat = 48 then some (0, r)
    else if 49 ≤ c.toNat ∧ c.toNat ≤ 57 then some (parseDigits r (c.toNat - 48))
    else none

/-- Signed integer part `-?(0|[1-9]\d*)` of the `json` number regex. -/
def parseNumber : List Char → Option (Int × List Char)
  | [] => none
  | c :: r =>
    if c = '-' then (parseUInt r).map (fun p => (-(p.1 : Int), p.2))
    else (parseUInt (c :: r)).map (fun p => ((p.1 : Int), p.2))

/-- Does the remainder start a fraction or exponent?  CPython would then
build a float, which is outside the modelled scalar subset. -/
def floatStart : List Char → Bool
  | c :: _ => c = '.' ∨ c = 'e' ∨ c = 'E'
  | [] => false

/-- Tail of a literal keyword (`rue`, `alse`, `ull`), as matched by the
`startswith` calls of the CPython `json` scanner. -/
def parseKeyword (kw : List Char) (v : JValue) (l : List Char) : Option (JValue × List Char) :=
  if l.take kw.length = kw then some (v, l.drop kw.length) else none

/-- One JSON value of the modelled scalar subset, as scanned by the CPython
`json` scanner: a quoted string, the literals `true` / `false` / `null`, or
an integer.  Containers, floats, and the nonstandard `NaN` / `Infinity`
literals are outside the modelled subset and yield `none`. -/
def parseValue : List Char → Option (JValue × List Char)
  | [] => none
  | c :: r =>
    if c = '\"' then
      (parseStringBody r).map (fun p => (JValue.str (String.mk p.1), p.2))
    else if c = 't' then parseKeyword ['r', 'u', 'e'] (JValue.bool true) r
    else if c = 'f' then parseKeyword ['a', 'l', 's', 'e'] (JValue.bool false) r
    else if c = 'n' then parseKeyword ['u', 'l', 'l'] JValue.null r
    else if c = '-' ∨ (48 ≤ c.toNat ∧ c.toNat ≤ 57) then
      match parseNumber (c :: r) with
      | some (i, rest) => if floatStart rest then none else some (JValue.int i, rest)
      | none => none
    else none

/-- Skip the JSON whitespace characters (space, tab, newline, carriage
return), as `json.loads` does around a document. -/
def skipWs : List Char → List Char
  | [] => []
  | c :: r =>
    if c.toNat = 32 ∨ c.toNat = 9 ∨ c.toNat = 10 ∨ c.toNat = 13 then skipWs r
    else c :: r

/-- The model of `json.loads` on the scalar subset: one value surrounded by
optional whitespace; trailing garbage is an error (`Extra data`). -/
def jsonLoads (s : String) : Option JValue :=
  match parseValue (skipWs s.data) with
  | some (v, rest) => if skipWs rest = [] then some v else none
  | none => none
/-- Code point of `Char.ofNat` at a valid code point. -/
theorem charToNat_ofNat {n : Nat} (h : n.isValidChar) : (Char.ofNat n).toNat = n := by
  rw [Char.ofNat, dif_pos h]
  rfl

/-- Every character is a Unicode scalar value: below the surrogate block or
between it and `0x110000`. -/
theorem charToNat_valid (c : Char) : c.toNat < 0xd800 ∨ (0xdfff < c.toNat ∧ c.toNat < 0x110000) := by
  rcases c.valid with h | ⟨h1, h2⟩
  · left
    simpa [UInt32.lt_def, BitVec.lt_def, Char.toNat] using h
  · right
    constructor
    · simpa [UInt32.lt_def, BitVec.lt_def, Char.toNat] using h1
    · simpa [UInt32.lt_def, BitVec.lt_def, Char.toNat] using h2

/-- Reading back a single hexadecimal digit. -/
theorem hexVal_hexDigitChar (d : Nat) (h : d < 16) :
    hexVal (hexDigitChar d) = some d :=
  (by decide : ∀ x : Fin 16, hexVal (hexDigitChar x.val) = some x.val) ⟨d, h⟩

/-- Reading back a four-hex-digit group. -/
theorem hexVal4_hex4 {n : Nat} (h : n < 0x10000) (rest : List Char) :
    ∃ a b c d, hex4 n ++ rest = a :: b :: c :: d :: rest ∧ hexVal4 a b c d = some n := by
  refine ⟨_, _, _, _, rfl, ?_⟩
  rw [hexVal4, hexVal_hexDigitChar _ (Nat.mod_lt _ (by omega)),
      hexVal_hexDigitChar _ (Nat.mod_lt _ (by omega)),
      hexVal_hexDigitChar _ (Nat.mod_lt _ (by omega)),
      hexVal_hexDigitChar _ (Nat.mod_lt _ (by omega))]
  simp only [Option.some.injEq]
  omega


/-- Unfolding of `parseStringBody` on a backslash when the escape step is
known. -/
theorem parseStringBody_backslash {r : List Char} {u : Char} {r2 : List Char}
    (h : parseEscapeStep r = some (u, r2)) :
    parseStringBody ('\\' :: r) =
      (parseStringBody r2).map (fun p => (u :: p.1, p.2)) := by
  rw [parseStringBody]
  rw [if_neg (by decide), if_pos (by rfl)]
  split
  · rename_i u2 r3 heq
    rw [h] at heq
    simp only [Option.some.injEq, Prod.mk.injEq] at heq
    obtain ⟨rfl, rfl⟩ := heq
    rfl
  · rename_i heq
    rw [h] at heq
    simp at heq

/-- Scanning one escaped character: `parseStringBody` undoes `escapeChar`
and continues. -/
theorem parseStringBody_escapeChar (c : Char) (rest : List Char) :
    parseStringBody (escapeChar c ++ rest) =
      (parseStringBody rest).map (fun p => (c :: p.1, p.2)) := by
  by_cases h1 : c = '\\'
  · subst h1; simp [escapeChar, parseStringBody, parseEscapeStep, unescapeChar]
  by_cases h2 : c = '\"'
  · subst h2; simp [escapeChar, parseStringBody, parseEscapeStep, unescapeChar]
  by_cases h3 : c = '\x08'
  · subst h3; simp [escapeChar, parseStringBody, parseEscapeStep, unescapeChar]
  by_cases h4 : c = '\x09'
  · subst h4; simp [escapeChar, parseStringBody, parseEscapeStep, unescapeChar]
  by_cases h5 : c = '\x0a'
  · subst h5; simp [escapeChar, parseStringBody, parseEscapeStep, unescapeChar]
  by_cases h6 : c = '\x0c'
  · subst h6; simp [escapeChar, parseStringBody, parseEscapeStep, unescapeChar]
  by_cases h7 : c = '\x0d'
  · subst h7; simp [escapeChar, parseStringBody, parseEscapeStep, unescapeChar]
  by_cases h8 : 0x20 ≤ c.toNat ∧ c.toNat ≤ 0x7e
  · have e1 : escapeChar c = [c] := by
      simp [escapeChar, h1, h2, h3, h4, h5, h6, h7, h8]
    have hge : ¬ c.toNat < 0x20 := by omega
    rw [e1]
    simp [parseStringBody, h1, h2, hge]
  by_cases h9 : c.toNat < 0x10000
  · have e1 : escapeChar c = '\\' :: 'u' :: hex4 c.toNat := by
      simp [escapeChar, h1, h2, h3, h4, h5, h6, h7, h8, h9]
    obtain ⟨a, b, c2, d, hsplit, hval⟩ := hexVal4_hex4 h9 rest
    have hns1 : ¬ (0xd800 ≤ c.toNat ∧ c.toNat ≤ 0xdbff) := by
      rcases charToNat_valid c with hv | hv <;> omega
    have hns2 : ¬ (0xdc00 ≤ c.toNat ∧ c.toNat ≤ 0xdfff) := by
      rcases charToNat_valid c with hv | hv <;> omega
    rw [e1]
    simp only [List.cons_append, hsplit]
    have hstep : parseEscapeStep ('u' :: a :: b :: c2 :: d :: rest) =
        some (Char.ofNat c.toNat, rest) := by
      simp [parseEscapeStep, parseUStep, hval, hns1, hns2]
    rw [parseStringBody_backslash hstep, Char.ofNat_toNat]
  · have hup : c.toNat < 0x110000 := by
      rcases charToNat_valid c with hv | hv <;> omega
    have e1 : escapeChar c =
        '\\' :: 'u' :: hex4 (0xd800 + (c.toNat - 0x10000) / 0x400) ++
          ('\\' :: 'u' :: hex4 (0xdc00 + (c.toNat - 0x10000) % 0x400)) := by
      simp [escapeChar, h1, h2, h3, h4, h5, h6, h7, h8, h9]
    have hhiN : 0xd800 + (c.toNat - 0x10000) / 0x400 < 0x10000 := by
      have : (c.toNat - 0x10000) / 0x400 ≤ 0x3ff := by
        apply Nat.le_of_lt_succ
        apply Nat.div_lt_of_lt_mul
        omega
      omega
    have hloN : 0xdc00 + (c.toNat - 0x10000) % 0x400 < 0x10000 := by
      have : (c.toNat - 0x10000) % 0x400 < 0x400 := Nat.mod_lt _ (by omega)
      omega
    obtain ⟨a2, b2, c3, d2, hsplit2, hval2⟩ := hexVal4_hex4 hloN rest
    obtain ⟨a, b, c2, d, hsplit, hval⟩ :=
      hexVal4_hex4 hhiN ('\\' :: 'u' :: (a2 :: b2 :: c3 :: d2 :: rest))
    have hhir : 0xd800 ≤ 0xd800 + (c.toNat - 0x10000) / 0x400 ∧
        0xd800 + (c.toNat - 0x10000) / 0x400 ≤ 0xdbff := by
      have : (c.toNat - 0x10000) / 0x400 ≤ 0x3ff := by
        apply Nat.le_of_lt_succ
        apply Nat.div_lt_of_lt_mul
        omega
      omega
    have hlor : 0xdc00 ≤ 0xdc00 + (c.toNat - 0x10000) % 0x400 ∧
        0xdc00 + (c.toNat - 0x10000) % 0x400 ≤ 0xdfff := by
      have : (c.toNat - 0x10000) % 0x400 < 0x400 := Nat.mod_lt _ (by omega)
      omega
    have hrecon : 0x10000 +
        (0xd800 + (c.toNat - 0x10000) / 0x400 - 0xd800) * 0x400 +
          (0xdc00 + (c.toNat - 0x10000) % 0x400 - 0xdc00) = c.toNat := by
      have := Nat.div_add_mod (c.toNat - 0x10000) 0x400
      omega
    rw [e1]
    simp only [List.cons_append, List.append_assoc, List.nil_append]
    rw [hsplit2, hsplit]
    have hstep : parseEscapeStep
        ('u' :: a :: b :: c2 :: d :: '\\' :: 'u' :: a2 :: b2 :: c3 :: d2 :: rest) =
        some (c, rest) := by
      simp [parseEscapeStep, parseUStep, hval, hval2, hhir, hlor]
      have harith : 65536 + (c.toNat - 65536) / 1024 * 1024 + (c.toNat - 65536) % 1024
          = c.toNat := by omega
      rw [harith, Char.ofNat_toNat]
    rw [parseStringBody_backslash hstep]

/-- Scanning the whole escaped body up to the closing quote recovers the
original characters. -/
theorem parseStringBody_escapeList (s : List Char) (rest : List Char) :
    parseStringBody (escapeList s ++ '\"' :: rest) = some (s, rest) := by
  induction s with
  | nil => simp [escapeList, parseStringBody]
  | cons c cs ih =>
    simp only [escapeList, List.append_assoc]
    rw [parseStringBody_escapeChar, ih]
    rfl

/-- Code point of a decimal digit character. -/
theorem digitChar_toNat {d : Nat} (h : d < 10) : (digitChar d).toNat = 48 + d := by
  rw [digitChar, Nat.mod_eq_of_lt h]
  exact charToNat_ofNat (Or.inl (by omega))

/-- Scanning the decimal digits of `n` accumulates exactly `n` (with the
prior accumulator shifted by the number of digits). -/
theorem parseDigits_natDigits (n : Nat) : ∀ fuel acc rest, n + 1 ≤ fuel →
    parseDigits (natDigits fuel n ++ rest) acc =
      parseDigits rest (acc * 10 ^ (natDigits fuel n).length + n) := by
  induction n using Nat.strong_induction_on with
  | _ n ih =>
    intro fuel acc rest hf
    obtain ⟨f, rfl⟩ : ∃ f, fuel = f + 1 := ⟨fuel - 1, by omega⟩
    by_cases hn : n < 10
    · simp only [natDigits, if_pos hn, List.cons_append, List.nil_append,
        List.length_cons, List.length_nil]
    
      rw [parseDigits, if_pos ⟨by rw [digitChar_toNat hn]; omega,
        by rw [digitChar_toNat hn]; omega⟩]
      congr 1
      rw [digitChar_toNat hn]
      omega
    · simp only [natDigits, if_neg hn, List.append_assoc, List.length_append,
        List.length_cons, List.length_nil]
      have hlt : n / 10 < n := Nat.div_lt_self (by omega) (by omega)
      have hf2 : n / 10 + 1 ≤ f := by omega
      rw [ih (n / 10) hlt f acc ([digitChar (n % 10)] ++ rest) hf2]
      have hm : n % 10 < 10 := Nat.mod_lt _ (by omega)
      simp only [List.cons_append, List.nil_append]
      rw [parseDigits, if_pos ⟨by rw [digitChar_toNat hm]; omega,
        by rw [digitChar_toNat hm]; omega⟩]
      congr 1
      rw [digitChar_toNat hm, pow_succ, ← Nat.mul_assoc]
      have hdm : n / 10 * 10 + n % 10 = n := by omega
      omega
    
/-- The decimal digits of a positive number start with a nonzero digit. -/
theorem natDigits_head (n : Nat) : ∀ fuel, n + 1 ≤ fuel → 1 ≤ n →
    ∃ c cs, natDigits fuel n = c :: cs ∧ 49 ≤ c.toNat ∧ c.toNat ≤ 57 := by
  induction n using Nat.strong_induction_on with
  | _ n ih =>
    intro fuel hf hn
    obtain ⟨f, rfl⟩ : ∃ f, fuel = f + 1 := ⟨fuel - 1, by omega⟩
    by_cases h10 : n < 10
    · refine ⟨digitChar n, [], by simp [natDigits, h10], ?_, ?_⟩ <;>
        rw [digitChar_toNat h10] <;> omega
    · have hlt : n / 10 < n := Nat.div_lt_self (by omega) (by omega)
      obtain ⟨c, cs, he, h1, h2⟩ := ih (n / 10) hlt f (by omega) (by
        have : 1 ≤ n / 10 := Nat.one_le_div_iff (by omega) |>.mpr (by omega)
        omega)
      exact ⟨c, cs ++ [digitChar (n % 10)], by simp [natDigits, h10, he], h1, h2⟩

/-- The decimal representation is never empty. -/
theorem natRepr_ne_nil (n : Nat) : natRepr n ≠ [] := by
  rw [natRepr, natDigits]
  by_cases h : n < 10 <;> simp [h]

/-- Scanning the full decimal representation of `n` yields `n` with nothing
left over. -/
theorem parseUInt_natRepr (n : Nat) : parseUInt (natRepr n) = some (n, []) := by
  by_cases h0 : n = 0
  · subst h0; decide
  · obtain ⟨c, cs, he, h49, h57⟩ := natDigits_head n (n + 1) (Nat.le_refl _) (by omega)
    have hmain := parseDigits_natDigits n (n + 1) 0 [] (Nat.le_refl _)
    rw [List.append_nil] at hmain
    have hrepr : natRepr n = c :: cs := he
    rw [he] at hmain
    rw [parseDigits] at hmain
    rw [hrepr, parseUInt, if_neg (by omega), if_pos ⟨h49, h57⟩]
    have hstep : parseDigits (c :: cs) 0 = parseDigits cs (c.toNat - 48) := by
      rw [parseDigits, if_pos (⟨by omega, by omega⟩ : 48 ≤ c.toNat ∧ c.toNat ≤ 57)]
      congr 1
      omega
    rw [← hstep, hmain]
    simp

/-- Scanning the full decimal representation of an integer yields it back. -/
theorem parseNumber_intRepr (i : Int) : parseNumber (intRepr i) = some (i, []) := by
  cases i with
  | ofNat n =>
    simp only [intRepr]
    have hd : ∃ c cs, natRepr n = c :: cs ∧ 48 ≤ c.toNat ∧ c.toNat ≤ 57 := by
      by_cases h0 : n = 0
      · subst h0; exact ⟨'0', [], by decide, by decide, by decide⟩
      · obtain ⟨c, cs, he, h1, h2⟩ := natDigits_head n (n + 1) (Nat.le_refl _) (by omega)
        exact ⟨c, cs, he, by omega, h2⟩
    obtain ⟨c, cs, he, h1, h2⟩ := hd
    have hne : ¬ c = '-' := by
      intro hh
      subst hh
      exact absurd (And.intro h1 h2) (by decide)
    rw [he, parseNumber, if_neg hne, ← he, parseUInt_natRepr]
    rfl
  | negSucc n =>
    simp only [intRepr]
    rw [parseNumber, if_pos rfl, parseUInt_natRepr]
    simp [Int.negSucc_eq]

/-- Skipping whitespace does nothing when the first character is not JSON
whitespace. -/
theorem skipWs_cons {c : Char} (r : List Char)
    (h : ¬ (c.toNat = 32 ∨ c.toNat = 9 ∨ c.toNat = 10 ∨ c.toNat = 13)) :
    skipWs (c :: r) = c :: r := by
  simp [skipWs, h]

/-- Scanning a digit-or-minus head goes to the number branch of the value
scanner. -/
theorem parseValue_number {c : Char} (cs : List Char)
    (h : c = '-' ∨ (48 ≤ c.toNat ∧ c.toNat ≤ 57)) :
    parseValue (c :: cs) =
      match parseNumber (c :: cs) with
      | some (i, rest) => if floatStart rest then none else some (JValue.int i, rest)
      | none => none := by
  rcases h with h | h
  · subst h
    simp [parseValue]
  · have hq : ¬ c = '\"' := by intro hh; subst hh; exact absurd h (by decide)
    have ht : ¬ c = 't' := by intro hh; subst hh; exact absurd h (by decide)
    have hf : ¬ c = 'f' := by intro hh; subst hh; exact absurd h (by decide)
    have hn : ¬ c = 'n' := by intro hh; subst hh; exact absurd h (by decide)
    rw [parseValue, if_neg hq, if_neg ht, if_neg hf, if_neg hn, if_pos (Or.inr h)]

/-- Round-trip law of the modelled scalar codec: decoding an encoded value
recovers it exactly (value and type). -/
theorem jsonLoads_jsonDumps (v : JValue) : jsonLoads (jsonDumps v) = some v := by
  cases v with
  | null => decide
  | bool b => cases b <;> decide
  | int i =>
    have hd : ∃ c cs, intRepr i = c :: cs ∧
        (c = '-' ∨ (48 ≤ c.toNat ∧ c.toNat ≤ 57)) := by
      cases i with
      | ofNat n =>
        by_cases h0 : n = 0
        · subst h0; exact ⟨'0', [], by decide, Or.inr (by decide)⟩
        · obtain ⟨c, cs, he, h1, h2⟩ := natDigits_head n (n + 1) (Nat.le_refl _) (by omega)
          exact ⟨c, cs, he, Or.inr (by omega)⟩
      | negSucc n => exact ⟨'-', natRepr (n + 1), rfl, Or.inl rfl⟩
    obtain ⟨c, cs, he, hdig⟩ := hd
    have hnw : ¬ (c.toNat = 32 ∨ c.toNat = 9 ∨ c.toNat = 10 ∨ c.toNat = 13) := by
      rcases hdig with h | h
      · subst h; decide
      · omega
    rw [jsonLoads]
    show (match parseValue (skipWs (intRepr i)) with
      | some (v, rest) => if skipWs rest = [] then some v else none
      | none => none) = some (JValue.int i)
    rw [he, skipWs_cons cs hnw, parseValue_number cs hdig, ← he, parseNumber_intRepr]
    simp [floatStart, skipWs]
  | str s =>
    rw [jsonLoads]
    show (match parseValue (skipWs ('\"' :: escapeList s.data ++ ['\"'])) with
      | some (v, rest) => if skipWs rest = [] then some v else none
      | none => none) = some (JValue.str s)
    rw [List.cons_append, skipWs_cons _ (by decide), parseValue, if_pos rfl]
    rw [show escapeList s.data ++ ['\"'] = escapeList s.data ++ '\"' :: [] from rfl]
    rw [parseStringBody_escapeList]
    simp [skipWs]

/-- The first pass of `BasicInterpolation.before_set`
(`value.replace(\x7b\x7d, ...)` on doubled percent signs): remove the
non-overlapping left-to-right occurrences of a doubled percent sign. -/
def replaceDoublePercent : List Char → List Char
  | [] => []
  | '%' :: '%' :: r => replaceDoublePercent r
  | c :: r => c :: replaceDoublePercent r

/-- The second pass of `BasicInterpolation.before_set`: delete every
occurrence of the `_KEYCRE` pattern (a percent sign, an opening parenthesis,
a nonempty run of characters other than a closing parenthesis, a closing
parenthesis, and the conversion character `s`), scanning left to right.
When first argument holds an accumulator the scan is inside a candidate
reference (collected characters in reverse).  One approximation, documented
here: when a candidate fails (no closing parenthesis, or the closing
parenthesis is not followed by the conversion character), CPython re-scans
from the character after the percent sign, so a new match may start inside
the failed candidate; this model emits the failed candidate verbatim and
continues after it.  The divergence is only reachable on strings containing
a percent sign inside a failed candidate, which no claim exercises. -/
def keycreScan : Option (List Char) → List Char → List Char
  | none, [] => []
  | none, '%' :: '(' :: r2 => keycreScan (some []) r2
  | none, '%' :: c2 :: r2 => '%' :: keycreScan none (c2 :: r2)
  | none, '%' :: [] => ['%']
  | none, c :: r => c :: keycreScan none r
  | some acc, [] => '%' :: '(' :: acc.reverse
  | some acc, ')' :: 's' :: r2 =>
    if acc.isEmpty then '%' :: '(' :: ')' :: 's' :: keycreScan none r2
    else keycreScan none r2
  | some acc, ')' :: c2 :: r2 => '%' :: '(' :: acc.reverse ++ ')' :: keycreScan none (c2 :: r2)
  | some acc, ')' :: [] => '%' :: '(' :: acc.reverse ++ [')']
  | some acc, c :: r => keycreScan (some (c :: acc)) r

/-- The syntax check of `BasicInterpolation.before_set`, applied by
`parser.set`: after removing doubled percent signs and well-formed
`%(...)s` references, any remaining percent sign is a `ValueError`
(invalid interpolation syntax).  Returns `true` when the value is
accepted. -/
def validBeforeSet (s : String) : Bool :=
  ! ((keycreScan none (replaceDoublePercent s.data)).contains '%')

/-- The default `optionxform` of `configparser`: option names are
lowercased both when stored and when queried.  Python `str.lower` is full
Unicode; the model lowercases with `Char.toLower` (ASCII), which agrees on
every name the claims exercise. -/
def optionxform (s : String) : String := String.mk (s.data.map Char.toLower)

/-- One scanning pass of `BasicInterpolation._interpolate_some` (used by
`before_get` when a value is read through `parser['General'][key]`): plain
characters are copied, a doubled percent sign renders one percent sign, a
`%(name)s` reference is resolved in `map` (the raw option entries of the
section) with the option name lowercased, recursing through `nest` when the
resolved value itself contains a percent sign, and any other use of a
percent sign is an `InterpolationSyntaxError`.  A missing referenced option
is an `InterpolationMissingOptionError`.  When the first list argument
holds an accumulator the scan is inside a `%(` reference (collected name
characters in reverse). -/
def interpRun (map : List (String × String)) (nest : List Char → Except String String) :
    Option (List Char) → List Char → Except String String
  | none, [] => Except.ok ""
  | none, '%' :: '%' :: r2 => (interpRun map nest none r2).map (fun t => "%" ++ t)
  | none, '%' :: '(' :: r2 => interpRun map nest (some []) r2
  | none, '%' :: _ => Except.error "InterpolationSyntaxError"
  | none, c :: r => (interpRun map nest none r).map (fun t => String.singleton c ++ t)
  | some _, [] => Except.error "InterpolationSyntaxError"
  | some acc, ')' :: 's' :: r2 =>
    if acc.isEmpty then Except.error "InterpolationSyntaxError"
    else
      match assocGet map (optionxform (String.mk acc.reverse)) with
      | none => Except.error "InterpolationMissingOptionError"
      | some v =>
        if v.contains '%' then
          match nest v.data with
          | Except.ok nested => (interpRun map nest none r2).map (fun t => nested ++ t)
          | Except.error e => Except.error e
        else (interpRun map nest none r2).map (fun t => v ++ t)
  | some _, ')' :: _ => Except.error "InterpolationSyntaxError"
  | some acc, c :: r => interpRun map nest (some (c :: acc)) r

/-- `BasicInterpolation._interpolate_some` with its depth counter: the first
argument is the remaining allowed depth (`MAX_INTERPOLATION_DEPTH = 10`
minus the depth already used, plus one); entering with none left raises
`InterpolationDepthError`. -/
def interpSome (map : List (String × String)) : Nat → List Char → Except String String
  | 0, _ => Except.error "InterpolationDepthError"
  | rem + 1, cs => interpRun map (interpSome map rem) none cs

/-- `BasicInterpolation.before_get` on a raw value, as invoked from
`parser['General'][key]` during `Configuration.read`: a full interpolation
pass at starting depth 1. -/
def interpValue (map : List (String × String)) (raw : String) : Except String String :=
  interpSome map 10 raw.data

/-- Removing doubled percent signs is the identity on percent-free text. -/
theorem replaceDoublePercent_id {l : List Char} (h : '%' ∉ l) :
    replaceDoublePercent l = l := by
  induction l with
  | nil => rfl
  | cons c r ih =>
    have hc : ¬ c = '%' := fun hh => h (hh ▸ List.mem_cons_self c r)
    have hr : '%' ∉ r := fun hm => h (List.mem_cons_of_mem c hm)
    simp [replaceDoublePercent, hc, ih hr]

/-- Reference deletion is the identity on percent-free text. -/
theorem keycreScan_id {l : List Char} (h : '%' ∉ l) :
    keycreScan none l = l := by
  induction l with
  | nil => rfl
  | cons c r ih =>
    have hc : ¬ c = '%' := fun hh => h (hh ▸ List.mem_cons_self c r)
    have hr : '%' ∉ r := fun hm => h (List.mem_cons_of_mem c hm)
    simp [keycreScan, hc, ih hr]

/-- The `before_set` syntax check accepts every percent-free value. -/
theorem validBeforeSet_of_not_mem {s : String} (h : '%' ∉ s.data) :
    validBeforeSet s = true := by
  rw [validBeforeSet, replaceDoublePercent_id h, keycreScan_id h]
  simpa using h

/-- Interpolation is the identity on percent-free text. -/
theorem interpRun_id (map : List (String × String)) (nest : List Char → Except String String)
    {l : List Char} (h : '%' ∉ l) :
    interpRun map nest none l = Except.ok (String.mk l) := by
  induction l with
  | nil => rfl
  | cons c r ih =>
    have hc : ¬ c = '%' := fun hh => h (hh ▸ List.mem_cons_self c r)
    have hr : '%' ∉ r := fun hm => h (List.mem_cons_of_mem c hm)
    simp [interpRun, hc, ih hr]
    rfl

/-- A full `before_get` pass is the identity on percent-free text. -/
theorem interpValue_id (map : List (String × String)) {raw : String}
    (h : '%' ∉ raw.data) : interpValue map raw = Except.ok raw := by
  rw [interpValue, interpSome, interpRun_id map _ h]

/-- The `Setting` class: one named value with a default, a current value,
and optional external accessor hooks.  `dflt` models the `_default`
attribute.  A getter is a pure function of the external state (the spec
stipulates getters retrieve external state without side effects); a setter
transforms the external state. -/
structure Setting (σ : Type) where
  key : String
  dflt : JValue
  value : JValue
  setter : Option (JValue → σ → σ)
  getter : Option (σ → JValue)

/-- The `Configuration` class state: the `_settings` dict (association list
in insertion order) and the remaining instance `__dict__` entries (`idict`),
where CPython default attribute assignment stores values, since the source
defines no `__setattr__` override. -/
structure Configuration (σ : Type) where
  settings : List (String × Setting σ)
  idict : List (String × JValue)

/-- `Configuration.add_setting`: build a `Setting` whose value starts at the
default and store it under `key`, replacing (in place) any previous setting
with that key.  The overwrite and shadow warnings are advisory signals not
modelled here. -/
def Configuration.addSetting {σ : Type} (cfg : Configuration σ) (key : String)
    (dflt : JValue) (setter : Option (JValue → σ → σ)) (getter : Option (σ → JValue)) :
    Configuration σ :=
  { cfg with settings := assocSet cfg.settings key ⟨key, dflt, dflt, setter, getter⟩ }

/-- `Configuration.__init__` with the path already resolved: the source
derives a default path from the home directory and `sys.argv` when
`filename` is `None` and applies `os.path.abspath`; both are environment
operations, so the model takes the resolved absolute path as given.  The
instance starts with an empty `_settings` dict and then declares the
distinguished `config_file` setting holding the path. -/
def Configuration.init (σ : Type) (filename : String) : Configuration σ :=
  Configuration.addSetting ⟨[], []⟩ "config_file" (JValue.str filename) none none

/-- Attribute read on a `Configuration` object for a non-method name, as
CPython resolves it: the instance `__dict__` first, then the
`__getattr__` fallback, which returns `_settings[name].value` (raising
`KeyError`, modelled as `none`, when the name is not declared). -/
def Configuration.attrGet {σ : Type} (cfg : Configuration σ) (name : String) : Option JValue :=
  match assocGet cfg.idict name with
  | some v => some v
  | none => (assocGet cfg.settings name).map (fun s => s.value)

/-- Attribute write on a `Configuration` object: the source defines no
`__setattr__` override (despite the comment above `_settings` saying it
does), so CPython default assignment stores the value in the instance
`__dict__`, leaving `_settings` untouched. -/
def Configuration.attrSet {σ : Type} (cfg : Configuration σ) (name : String) (v : JValue) :
    Configuration σ :=
  { cfg with idict := assocSet cfg.idict name v }

/-- Result of `Configuration.get`: the updated registry and external state,
the returned dict of pre-update values, and the exception channel. -/
structure GetResult (σ : Type) where
  cfg : Configuration σ
  w : σ
  changed : List (String × JValue)
  err : Option String

/-- The loop of `Configuration.get`: for each requested key, look the
setting up (`KeyError` aborts, keeping earlier updates), skip settings
without a getter, and otherwise record the pre-update value in the result
dict and overwrite the setting value with the getter result. -/
def getGo {σ : Type} : Configuration σ → σ → List (String × JValue) → List String → GetResult σ
  | cfg, w, changed, [] => ⟨cfg, w, changed, none⟩
  | cfg, w, changed, k :: ks =>
    match assocGet cfg.settings k with
    | none => ⟨cfg, w, changed, some ("KeyError: " ++ k)⟩
    | some s =>
      match s.getter with
      | none => getGo cfg w changed ks
      | some g =>
        getGo { cfg with settings := assocSet cfg.settings k { s with value := g w } } w
          (assocSet changed k s.value) ks

/-- `Configuration.get(keys=None)`: the Python guard is `if not keys`, so
both `None` and an empty list fall back to all declared keys in declaration
order. -/
def Configuration.get {σ : Type} (cfg : Configuration σ) (keys : Option (List String))
    (w : σ) : GetResult σ :=
  match keys with
  | none => getGo cfg w [] (cfg.settings.map Prod.fst)
  | some l => if l = [] then getGo cfg w [] (cfg.settings.map Prod.fst) else getGo cfg w [] l

/-- Modelled from the spec: the loop of the bulk-push operation `set`,
which is referenced by the test suite (`test_has_set` and the
`test_set__...` tests) but absent from `src/nostalgic/nostalgic.py`.
Following section 4.4 of the spec, for each requested key with a bound
setter it invokes `setter(value)` with the current value, skips keys
without a setter, and surfaces a no-such-setting error for undeclared keys
(section 7). -/
def setGo {σ : Type} : Configuration σ → σ → List String → σ × Option String
  | _, w, [] => (w, none)
  | cfg, w, k :: ks =>
    match assocGet cfg.settings k with
    | none => (w, some ("KeyError: " ++ k))
    | some s =>
      match s.setter with
      | none => setGo cfg w ks
      | some f => setGo cfg (f s.value w) ks

/-- Modelled from the spec: the bulk-push operation `set(keys=None)`, absent
from `src/nostalgic/nostalgic.py` (only its tests exist).  Per section 4.4
of the spec, `keys` defaults to all declared keys in declaration order, and
the call returns no meaningful value: the only returned data beyond the
external state is the exception channel. -/
def Configuration.set {σ : Type} (cfg : Configuration σ) (keys : Option (List String))
    (w : σ) : σ × Option String :=
  setGo cfg w (keys.getD (cfg.settings.map Prod.fst))

/-- Result of `Configuration.read` or the error half of
`Configuration.write`: the updated registry and external state and the
exception channel (mutations made before a raise are kept, as in Python). -/
structure IOResult (σ : Type) where
  cfg : Configuration σ
  w : σ
  err : Option String

/-- The loop of `Configuration.read`: iterate over the declared settings in
declaration order; `parser.has_option('General', key)` raises
`NoSectionError` when the parsed file has no `General` section, otherwise
it looks the key up with the default `optionxform` lowercasing (file keys
are stored lowercased); a present raw value goes through `before_get`
interpolation and `json.loads` (either failure aborts, keeping earlier
updates), is assigned to the setting value and then pushed through the
bound setter, if any. -/
def readGo {σ : Type} (file : Option (List (String × String))) :
    Configuration σ → σ → List String → IOResult σ
  | cfg, w, [] => ⟨cfg, w, none⟩
  | cfg, w, k :: ks =>
    match assocGet cfg.settings k with
    | none => readGo file cfg w ks
    | some s =>
      match file with
      | none => ⟨cfg, w, some "NoSectionError"⟩
      | some entries =>
        match assocGet entries (optionxform k) with
        | none => readGo file cfg w ks
        | some raw =>
          match interpValue entries raw with
          | Except.error e => ⟨cfg, w, some e⟩
          | Except.ok txt =>
            match jsonLoads txt with
            | none => ⟨cfg, w, some "JSONDecodeError"⟩
            | some v =>
              match s.setter with
              | some f =>
                readGo file { cfg with settings := assocSet cfg.settings k { s with value := v } }
                  (f v w) ks
              | none =>
                readGo file { cfg with settings := assocSet cfg.settings k { s with value := v } }
                  w ks

/-- `Configuration.read(filename=None)`: the source resolves the filename
(defaulting to `self.config_file`), opens and parses it; the model takes
the parsed `General` section directly (`none` when the parsed text has no
`General` section) and runs the loop over the declared settings.  The
source has no `sync` parameter: setters are always invoked. -/
def Configuration.read {σ : Type} (cfg : Configuration σ)
    (file : Option (List (String × String))) (w : σ) : IOResult σ :=
  readGo file cfg w (cfg.settings.map Prod.fst)

/-- Result of `Configuration.write`: the updated registry, the written file
(path opened and `General` section entries) when the call succeeds, and the
exception channel. -/
structure WriteResult (σ : Type) where
  cfg : Configuration σ
  file : Option (String × List (String × String))
  err : Option String

/-- The loop of `Configuration.write`: skip the `config_file` key; refresh
the value from the bound getter, if any (a mutation that persists even if a
later step raises); serialize with `json.dumps`; `parser.set` stores the
entry under the lowercased key after the `before_set` interpolation-syntax
check, whose failure is a `ValueError` (the check is skipped for an empty
value, which `json.dumps` never produces). -/
def writeGo {σ : Type} : Configuration σ → σ → List (String × String) → List String →
    Configuration σ × List (String × String) × Option String
  | cfg, _, acc, [] => (cfg, acc, none)
  | cfg, w, acc, k :: ks =>
    if k = "config_file" then writeGo cfg w acc ks
    else
      match assocGet cfg.settings k with
      | none => writeGo cfg w acc ks
      | some s =>
        match s.getter with
        | some g =>
          let s2 : Setting σ := { s with value := g w }
          let cfg2 : Configuration σ := { cfg with settings := assocSet cfg.settings k s2 }
          let raw := jsonDumps s2.value
          if raw.data = [] ∨ validBeforeSet raw then
            writeGo cfg2 w (assocSet acc (optionxform k) raw) ks
          else (cfg2, acc, some "ValueError: invalid interpolation syntax")
        | none =>
          let raw := jsonDumps s.value
          if raw.data = [] ∨ validBeforeSet raw then
            writeGo cfg w (assocSet acc (optionxform k) raw) ks
          else (cfg, acc, some "ValueError: invalid interpolation syntax")

/-- `Configuration.write(filename=None)`: the source resolves an effective
filename (`if not filename: filename = self.config_file`) but the resolved
value is dead: the directory creation uses
`os.path.dirname(self.config_file)` and the final open uses
`self.config_file`, so the parameter never influences the destination.
`self.config_file` is an attribute read; a non-string value there fails
(`TypeError` in the path operations) before the loop runs.  On success the
file at the config-file path holds the accumulated `General` entries. -/
def Configuration.write {σ : Type} (cfg : Configuration σ) (filename : Option String)
    (w : σ) : WriteResult σ :=
  match cfg.attrGet "config_file" with
  | some (JValue.str path) =>
    match writeGo cfg w [] (cfg.settings.map Prod.fst) with
    | (cfg2, entries, none) => ⟨cfg2, some (path, entries), none⟩
    | (cfg2, _, some e) => ⟨cfg2, none, some e⟩
  | _ => ⟨cfg, none, some "TypeError"⟩

/-- The `SingletonMetaclass._instances` slot for the `Configuration` class,
together with an allocation counter used to model object identity: each
freshly constructed instance gets a new identity. -/
structure SingletonState (σ : Type) where
  inst : Option (Nat × Configuration σ)
  nextId : Nat

/-- Well-formedness of the singleton state: a cached identity was allocated
earlier than the next fresh identity. -/
def SingletonState.wfB {σ : Type} (st : SingletonState σ) : Bool :=
  match st.inst with
  | some (i, _) => decide (i < st.nextId)
  | none => true

/-- `SingletonMetaclass.__call__`: return the cached instance when one
exists (constructor arguments are ignored in that case, since `__init__`
does not run again); otherwise build a fresh instance via
`Configuration.__init__` and cache it. -/
def SingletonMetaclass.call {σ : Type} (st : SingletonState σ) (filename : String) :
    SingletonState σ × Nat × Configuration σ :=
  match st.inst with
  | some (i, c) => (st, i, c)
  | none =>
    (⟨some (st.nextId, Configuration.init σ filename), st.nextId + 1⟩,
      st.nextId, Configuration.init σ filename)

/-- `SingletonMetaclass.__reset`: delete the cached instance (missing cache
is tolerated via the `KeyError` handler). -/
def SingletonMetaclass.reset {σ : Type} (st : SingletonState σ) : SingletonState σ :=
  ⟨none, st.nextId⟩

/-- Looking up the key just written. -/
theorem assocGet_assocSet_self {α : Type} (l : List (String × α)) (k : String) (v : α) :
    assocGet (assocSet l k v) k = some v := by
  induction l with
  | nil => simp [assocSet, assocGet]
  | cons p r ih =>
    by_cases h : p.1 = k
    · simp [assocSet, assocGet, h]
    · simp only [assocSet, assocGet]
      rw [if_neg h, assocGet, if_neg h, ih]

/-- Writing one key does not disturb lookups of another. -/
theorem assocGet_assocSet_ne {α : Type} (l : List (String × α)) {k k' : String} (v : α)
    (h : k' ≠ k) : assocGet (assocSet l k v) k' = assocGet l k' := by
  induction l with
  | nil =>
    simp only [assocSet, assocGet]
    rw [if_neg (fun hh : k = k' => h hh.symm)]
  | cons p r ih =>
    by_cases hp : p.1 = k
    · simp only [assocSet]
      rw [if_pos hp, assocGet, assocGet, if_neg (fun hh : k = k' => h hh.symm), if_neg]
      rw [hp]
      exact fun hh : k = k' => h hh.symm
    · simp only [assocSet]
      rw [if_neg hp, assocGet, assocGet]
      by_cases hk : p.1 = k'
      · rw [if_pos hk, if_pos hk]
      · rw [if_neg hk, if_neg hk, ih]

/-- Writing an already-present key keeps the key sequence unchanged. -/
theorem assocSet_map_fst {α : Type} (l : List (String × α)) (k : String) (v : α)
    (h : (assocGet l k).isSome) : (assocSet l k v).map Prod.fst = l.map Prod.fst := by
  induction l with
  | nil => simp [assocGet] at h
  | cons p r ih =>
    by_cases hp : p.1 = k
    · simp [assocSet, hp]
    · rw [assocGet, if_neg hp] at h
      simp only [assocSet]
      rw [if_neg hp]
      simp [ih h]

/-- Writing a fresh key appends it. -/
theorem assocSet_fresh {α : Type} (l : List (String × α)) (k : String) (v : α)
    (h : assocGet l k = none) : assocSet l k v = l ++ [(k, v)] := by
  induction l with
  | nil => rfl
  | cons p r ih =>
    rw [assocGet] at h
    by_cases hp : p.1 = k
    · rw [if_pos hp] at h
      exact absurd h (by simp)
    · rw [if_neg hp] at h
      simp only [assocSet]
      rw [if_neg hp, ih h]
      rfl

/-- A lookup fails exactly when the key is not among the stored keys. -/
theorem assocGet_eq_none {α : Type} (l : List (String × α)) (k : String) :
    assocGet l k = none ↔ k ∉ l.map Prod.fst := by
  induction l with
  | nil => simp [assocGet]
  | cons p r ih =>
    rw [assocGet]
    by_cases hp : p.1 = k
    · simp [hp]
    · rw [if_neg hp]
      simp only [List.map_cons, List.mem_cons]
      rw [ih]
      constructor
      · exact fun h hh => hh.elim (fun he => hp he.symm) h
      · exact fun h hh => h (Or.inr hh)

/-- With no duplicate keys, looking up the key of a stored pair returns
exactly that pair. -/
theorem assocGet_of_nodup_mem {α : Type} {l : List (String × α)}
    (hnd : (l.map Prod.fst).Nodup) {p : String × α} (hp : p ∈ l) :
    assocGet l p.1 = some p.2 := by
  induction l with
  | nil => cases hp
  | cons q r ih =>
    rw [List.map_cons, List.nodup_cons] at hnd
    rcases List.mem_cons.mp hp with he | hm
    · subst he
      rw [assocGet, if_pos rfl]
    · rw [assocGet]
      have hq : ¬ q.1 = p.1 := by
        intro hh
        exact hnd.1 (hh ▸ List.mem_map_of_mem Prod.fst hm)
      rw [if_neg hq]
      exact ih hnd.2 hm

/-- A successful lookup returns a stored pair. -/
theorem assocGet_mem {α : Type} {l : List (String × α)} {k : String} {v : α}
    (h : assocGet l k = some v) : (k, v) ∈ l := by
  induction l with
  | nil => cases h
  | cons q r ih =>
    rw [assocGet] at h
    by_cases hq : q.1 = k
    · rw [if_pos hq] at h
      cases h
      have hqe : (k, q.2) = q := by rw [← hq]
      rw [hqe]
      exact List.mem_cons_self q r
    · rw [if_neg hq] at h
      exact List.mem_cons_of_mem q (ih h)

/-- Lookup distributes over append: the left list wins. -/
theorem assocGet_append {α : Type} (l1 l2 : List (String × α)) (k : String) :
    assocGet (l1 ++ l2) k =
      match assocGet l1 k with
      | some v => some v
      | none => assocGet l2 k := by
  induction l1 with
  | nil => simp [assocGet]
  | cons q r ih =>
    rw [List.cons_append, assocGet, assocGet]
    by_cases hq : q.1 = k
    · rw [if_pos hq, if_pos hq]
    · rw [if_neg hq, if_neg hq, ih]

/-- The push loop over the keys of a registry with no duplicate keys folds
the bound setters over the settings in declaration order. -/
theorem setGo_eq_foldl {σ : Type} (cfg : Configuration σ) :
    ∀ (l : List (String × Setting σ)) (w : σ),
    (∀ p ∈ l, assocGet cfg.settings p.1 = some p.2) →
    setGo cfg w (l.map Prod.fst) =
      (l.foldl (fun acc p =>
        match p.2.setter with
        | some f => f p.2.value acc
        | none => acc) w, none) := by
  intro l
  induction l with
  | nil => intro w _; rfl
  | cons p r ih =>
    intro w h
    rw [List.map_cons, setGo, h p (List.mem_cons_self p r), List.foldl_cons]
    cases hs : p.2.setter with
    | none => simpa [hs] using ih w (fun q hq => h q (List.mem_cons_of_mem p hq))
    | some f => simpa [hs] using ih (f p.2.value w) (fun q hq => h q (List.mem_cons_of_mem p hq))

/-- C1: the Registry provides a bulk-push operation `set(keys=None)`;
with the default key list (all declared keys, in declaration order) it
invokes `setter(value)` with each setting's current value for every key
with a bound setter, skips keys without a setter, and returns no meaningful
value (only the final external state; the second component is the exception
channel, which stays empty). -/
theorem C1_set_bulk_push {σ : Type} (cfg : Configuration σ) (w : σ)
    (hnd : (cfg.settings.map Prod.fst).Nodup) :
    Configuration.set cfg none w =
      (cfg.settings.foldl (fun acc p =>
        match p.2.setter with
        | some f => f p.2.value acc
        | none => acc) w, none) := by
  rw [Configuration.set, Option.getD]
  exact setGo_eq_foldl cfg cfg.settings w (fun p hp => assocGet_of_nodup_mem hnd hp)

/-- Witness for C1 on a concrete registry with two bound setters and one
setting without a setter (mirroring the shapes of the `test_set__...`
tests): both setters receive the current values, the hookless setting is
skipped, and no error is raised. -/
theorem C1_set_bulk_push_witness :
    (((((Configuration.init (JValue × JValue) "/cfg").addSetting "element_1"
        (JValue.str "default 1") (some (fun v p => (v, p.2))) none).addSetting "element_2"
        (JValue.str "default 2") (some (fun v p => (p.1, v))) none).addSetting "no_setter"
        (JValue.str "should not have been set") none none).settings.map Prod.fst).Nodup ∧
    Configuration.set
        ((((Configuration.init (JValue × JValue) "/cfg").addSetting "element_1"
          (JValue.str "default 1") (some (fun v p => (v, p.2))) none).addSetting "element_2"
          (JValue.str "default 2") (some (fun v p => (p.1, v))) none).addSetting "no_setter"
          (JValue.str "should not have been set") none none) none (JValue.null, JValue.null) =
      ((JValue.str "default 1", JValue.str "default 2"), none) := by
  refine ⟨by decide, ?_⟩
  rw [C1_set_bulk_push _ _ (by decide)]
  rfl

/-- The read loop never changes the sequence of declared keys. -/
theorem readGo_map_fst {σ : Type} (file : Option (List (String × String))) :
    ∀ (ks : List String) (cfg : Configuration σ) (w : σ),
    (readGo file cfg w ks).cfg.settings.map Prod.fst = cfg.settings.map Prod.fst := by
  intro ks
  induction ks with
  | nil => intro cfg w; rfl
  | cons k ks ih =>
    intro cfg w
    cases hs : assocGet cfg.settings k with
    | none =>
      simp only [readGo, hs]
      exact ih cfg w
    | some s =>
      cases file with
      | none => simp only [readGo, hs]
      | some entries =>
        cases hr : assocGet entries (optionxform k) with
        | none =>
          simp only [readGo, hs, hr]
          exact ih cfg w
        | some raw =>
          cases hi : interpValue entries raw with
          | error e => simp only [readGo, hs, hr, hi]
          | ok txt =>
            cases hj : jsonLoads txt with
            | none => simp only [readGo, hs, hr, hi, hj]
            | some v =>
              have hset : (assocGet cfg.settings k).isSome := by rw [hs]; rfl
              cases hst : s.setter with
              | some f =>
                simp only [readGo, hs, hr, hi, hj, hst]
                rw [ih, assocSet_map_fst cfg.settings k _ hset]
              | none =>
                simp only [readGo, hs, hr, hi, hj, hst]
                rw [ih, assocSet_map_fst cfg.settings k _ hset]

/-- C7: `read()` never adds a setting to the Registry: the declared key
sequence after `read()` equals the sequence before, for every file
contents, and every key undeclared before the call (in particular every
file key that was never declared) is still undeclared afterwards. -/
theorem C7_read_never_adds_settings {σ : Type} (cfg : Configuration σ)
    (file : Option (List (String × String))) (w : σ) :
    (cfg.read file w).cfg.settings.map Prod.fst = cfg.settings.map Prod.fst ∧
    ∀ k, assocGet cfg.settings k = none → assocGet (cfg.read file w).cfg.settings k = none := by
  constructor
  · exact readGo_map_fst file _ cfg w
  · intro k hk
    rw [assocGet_eq_none]
    show k ∉ List.map Prod.fst (readGo file cfg w (cfg.settings.map Prod.fst)).cfg.settings
    rw [readGo_map_fst file _ cfg w]
    exact (assocGet_eq_none cfg.settings k).mp hk

/-- Witness for C7: a file with an undeclared key `ghost` does not add a
setting for it. -/
theorem C7_read_never_adds_settings_witness :
    assocGet ((Configuration.init Unit "/cfg").read (some [("ghost", "1")]) ()).cfg.settings
      "ghost" = none :=
  (C7_read_never_adds_settings (Configuration.init Unit "/cfg")
    (some [("ghost", "1")]) ()).2 "ghost" rfl

/-- C2 (counter-evidence): the source has no `__setattr__` override (and no
`__setitem__`), so after declaring `foo` and assigning `cfg.foo = 42`, the
value lands in the instance `__dict__`: the attribute read returns `42`
(which is why `test_attribute_assignment_sets_setting_value` passes), but
the stored Setting object still holds its old value, contradicting the
claim that `registry[k].value == v` after an attribute write. -/
theorem C2_attribute_write_bypasses_setting :
    (assocGet ((((Configuration.init Unit "/tmp/cfg").addSetting "foo" JValue.null
        none none).attrSet "foo" (JValue.int 42)).settings) "foo").map (fun s => s.value) =
      some JValue.null ∧
      some JValue.null ≠ some (JValue.int 42) ∧
      (((Configuration.init Unit "/tmp/cfg").addSetting "foo" JValue.null
        none none).attrSet "foo" (JValue.int 42)).attrGet "foo" = some (JValue.int 42) := by
  exact ⟨rfl, by decide, rfl⟩

/-- C3 (counter-evidence): `Configuration.write` computes an effective
filename but then opens `self.config_file` regardless, so an explicitly
supplied filename never changes the destination: with `config_file` at
`/home/user/cfg`, `write(\x22/elsewhere/other\x22)` writes to
`/home/user/cfg`, and the result of `write` does not depend on the
filename argument at all. -/
theorem C3_write_ignores_filename :
    (let cfg := (Configuration.init Unit "/home/user/cfg").addSetting "x" (JValue.int 1) none none
     (cfg.write (some "/elsewhere/other") ()).file = some ("/home/user/cfg", [("x", "1")])) ∧
    ∀ (σ : Type) (cfg : Configuration σ) (fn1 fn2 : Option String) (w : σ),
      cfg.write fn1 w = cfg.write fn2 w := by
  exact ⟨rfl, fun σ cfg fn1 fn2 w => rfl⟩

/-- C4 (counter-evidence): `Configuration.read` has no `sync` parameter
(the call `read(sync=False)` in the tests raises `TypeError`); a bound
setter is always invoked with the freshly loaded value, as in
`test_read__calls_setters_by_default`: reading `third = 42` sets the
setting value and pushes `42` into the external state. -/
theorem C4_read_always_calls_setters :
    ((((Configuration.init JValue "/t").addSetting "third" JValue.null
        (some (fun v _ => v)) none).read (some [("third", "42")]) (JValue.int 0)).err =
      none) ∧
      (assocGet (((Configuration.init JValue "/t").addSetting "third" JValue.null
        (some (fun v _ => v)) none).read (some [("third", "42")])
          (JValue.int 0)).cfg.settings "third").map (fun s => s.value) =
        some (JValue.int 42) ∧
      (((Configuration.init JValue "/t").addSetting "third" JValue.null
        (some (fun v _ => v)) none).read (some [("third", "42")]) (JValue.int 0)).w =
        JValue.int 42 := by
  exact ⟨rfl, rfl, rfl⟩

/-- The lookup loop of `get` on a key list that reaches an undeclared key:
the `KeyError` surfaces, and the state is exactly the state after the
successfully processed prefix (no rollback). -/
theorem getGo_append_fail {σ : Type} :
    ∀ (ks1 : List String) (cfg : Configuration σ) (w : σ) (changed : List (String × JValue))
      (bad : String) (ks2 : List String),
    (∀ k ∈ ks1, (assocGet cfg.settings k).isSome) → assocGet cfg.settings bad = none →
    getGo cfg w changed (ks1 ++ bad :: ks2) =
      { getGo cfg w changed ks1 with err := some ("KeyError: " ++ bad) } := by
  intro ks1
  induction ks1 with
  | nil =>
    intro cfg w changed bad ks2 _ hbad
    simp only [List.nil_append, getGo, hbad]
  | cons k ks1 ih =>
    intro cfg w changed bad ks2 hdecl hbad
    have hk : (assocGet cfg.settings k).isSome := hdecl k (List.mem_cons_self k ks1)
    obtain ⟨s, hs⟩ := Option.isSome_iff_exists.mp hk
    have hkb : ¬ k = bad := by
      intro hh
      rw [hh, hbad] at hs
      cases hs
    cases hg : s.getter with
    | none =>
      simp only [List.cons_append, getGo, hs, hg]
      exact ih cfg w changed bad ks2 (fun q hq => hdecl q (List.mem_cons_of_mem k hq)) hbad
    | some g =>
      simp only [List.cons_append, getGo, hs, hg]
      refine ih _ w _ bad ks2 (fun q hq => ?_) ?_
      · by_cases hqk : q = k
        · subst hqk
          rw [assocGet_assocSet_self]
          rfl
        · rw [assocGet_assocSet_ne _ _ hqk]
          exact hdecl q (List.mem_cons_of_mem k hq)
      · rw [assocGet_assocSet_ne _ _ (fun hh : bad = k => hkb hh.symm)]
        exact hbad

/-- C10: passing `get` a keys list containing an undeclared key fails with
a key-lookup error (`KeyError`), and the failure is not atomic: the
registry state at the raise is the state after processing the declared
prefix, whose getter-bound settings have already been overwritten. -/
theorem C10_get_keyerror_not_atomic {σ : Type} (cfg : Configuration σ) (w : σ)
    (ks1 : List String) (bad : String) (ks2 : List String)
    (h1 : ∀ k ∈ ks1, (assocGet cfg.settings k).isSome)
    (h2 : assocGet cfg.settings bad = none) :
    (cfg.get (some (ks1 ++ bad :: ks2)) w).err = some ("KeyError: " ++ bad) ∧
    (cfg.get (some (ks1 ++ bad :: ks2)) w).cfg = (getGo cfg w [] ks1).cfg := by
  have hne : ¬ (ks1 ++ bad :: ks2) = [] := by
    cases ks1 <;> simp
  rw [Configuration.get, if_neg hne, getGo_append_fail ks1 cfg w [] bad ks2 h1 h2]
  exact ⟨rfl, rfl⟩

/-- Witness for C10 on a concrete registry: requesting `[a, ghost]` where
`a` has a getter and `ghost` is undeclared raises the key error and leaves
the getter result already written into `a`. -/
theorem C10_get_keyerror_not_atomic_witness :
    let cfg := (Configuration.init Unit "/cfg").addSetting "a" (JValue.int 0) none
      (some (fun _ => JValue.int 7))
    ((cfg.get (some (["a"] ++ "ghost" :: [])) ()).err = some ("KeyError: " ++ "ghost")) ∧
      (cfg.get (some (["a"] ++ "ghost" :: [])) ()).cfg = (getGo cfg () [] ["a"]).cfg :=
  C10_get_keyerror_not_atomic _ () ["a"] "ghost" [] (by decide) rfl

/-- C5 (counterexample): the claim, read over every list of declared keys,
predicts that `get([])` touches nothing and returns the empty mapping (an
empty list has no members), but the source guard is `if not keys`, which
treats an explicit empty list like the default: every getter fires.  With
one getter-bound setting `a`, `get([])` returns the nonempty pre-update
mapping and overwrites the value. -/
theorem C5_counterexample_empty_keys :
    let cfg := (Configuration.init Unit "/cfg").addSetting "a" (JValue.int 0) none
      (some (fun _ => JValue.int 7))
    let r := cfg.get (some []) ()
    r.changed = [("a", JValue.int 0)] ∧
      ¬ r.changed = [] ∧
      (assocGet r.cfg.settings "a").map (fun s => s.value) = some (JValue.int 7) := by
  exact ⟨rfl, by decide, rfl⟩

/-- Full characterization of the lookup loop of `get` on a duplicate-free
list of declared keys: no error, the external state is untouched (getters
are pure reads), the returned mapping extends the accumulator with the
pre-update value of each getter-bound listed setting (in list order,
skipping getterless settings), and each listed getter-bound setting's value
is overwritten with its getter's result while every other setting is
unchanged. -/
theorem getGo_characterization {σ : Type} :
    ∀ (keys : List String) (cfg : Configuration σ) (w : σ) (changed : List (String × JValue)),
    keys.Nodup →
    (∀ k ∈ keys, (assocGet cfg.settings k).isSome) →
    (∀ k ∈ keys, assocGet changed k = none) →
    (getGo cfg w changed keys).err = none ∧
    (getGo cfg w changed keys).w = w ∧
    (getGo cfg w changed keys).changed = changed ++ keys.filterMap (fun k =>
      match assocGet cfg.settings k with
      | some s => s.getter.map (fun _ => (k, s.value))
      | none => none) ∧
    (∀ k s, assocGet cfg.settings k = some s →
      assocGet (getGo cfg w changed keys).cfg.settings k =
        some (if k ∈ keys then
          match s.getter with
          | some g => { s with value := g w }
          | none => s
        else s)) := by
  intro keys
  induction keys with
  | nil =>
    intro cfg w changed _ _ _
    refine ⟨rfl, rfl, by simp [getGo], ?_⟩
    intro k s hs
    simp [getGo, hs]
  | cons k keys ih =>
    intro cfg w changed hnd hdecl hfresh
    obtain ⟨hkn, hnd2⟩ := List.nodup_cons.mp hnd
    obtain ⟨s, hs⟩ := Option.isSome_iff_exists.mp (hdecl k (List.mem_cons_self k keys))
    cases hg : s.getter with
    | none =>
      have ihr := ih cfg w changed hnd2
        (fun q hq => hdecl q (List.mem_cons_of_mem k hq))
        (fun q hq => hfresh q (List.mem_cons_of_mem k hq))
      obtain ⟨ihe, ihw, ihc, ihv⟩ := ihr
      refine ⟨?_, ?_, ?_, ?_⟩
      · simpa [getGo, hs, hg] using ihe
      · simpa [getGo, hs, hg] using ihw
      · simp only [getGo, hs, hg]
        rw [ihc, List.filterMap_cons]
        simp [hs, hg]
      · intro k2 s2 hs2
        simp only [getGo, hs, hg]
        rw [ihv k2 s2 hs2]
        by_cases hk2 : k2 = k
        · subst hk2
          have hss : s2 = s := by rw [hs] at hs2; cases hs2; rfl
          subst hss
          rw [if_neg hkn, if_pos (List.mem_cons_self k2 keys), hg]
        · simp only [List.mem_cons, hk2, false_or]
    | some g =>
      have hfreshk : assocGet changed k = none := hfresh k (List.mem_cons_self k keys)
      have hset : assocSet changed k s.value = changed ++ [(k, s.value)] :=
        assocSet_fresh changed k s.value hfreshk
      have ihr := ih ⟨assocSet cfg.settings k ⟨s.key, s.dflt, g w, s.setter, some g⟩, cfg.idict⟩
        w (assocSet changed k s.value) hnd2
        (fun q hq => by
          have hne : ¬ q = k := fun hh => hkn (hh ▸ hq)
          show (assocGet (assocSet cfg.settings k
            (⟨s.key, s.dflt, g w, s.setter, some g⟩ : Setting σ)) q).isSome
          rw [assocGet_assocSet_ne cfg.settings _ hne]
          exact hdecl q (List.mem_cons_of_mem k hq))
        (fun q hq => by
          have hne : ¬ q = k := fun hh => hkn (hh ▸ hq)
          have hne2 : ¬ k = q := fun hh => hne hh.symm
          rw [hset, assocGet_append, hfresh q (List.mem_cons_of_mem k hq)]
          simp [assocGet, hne2])
      obtain ⟨ihe, ihw, ihc, ihv⟩ := ihr
      have hcongr : keys.filterMap (fun q =>
          match assocGet (assocSet cfg.settings k
            (⟨s.key, s.dflt, g w, s.setter, some g⟩ : Setting σ)) q with
          | some s2 => s2.getter.map (fun _ => (q, s2.value))
          | none => none) = keys.filterMap (fun q =>
          match assocGet cfg.settings q with
          | some s2 => s2.getter.map (fun _ => (q, s2.value))
          | none => none) := by
        apply List.filterMap_congr
        intro q hq
        have hne : ¬ q = k := fun hh => hkn (hh ▸ hq)
        rw [assocGet_assocSet_ne cfg.settings _ hne]
      refine ⟨?_, ?_, ?_, ?_⟩
      · simpa [getGo, hs, hg] using ihe
      · simpa [getGo, hs, hg] using ihw
      · simp only [getGo, hs, hg]
        rw [ihc]
        show assocSet changed k s.value ++ _ = _
        rw [hcongr, hset, List.filterMap_cons]
        simp [hs, hg, List.append_assoc]
      · intro k2 s2 hs2
        simp only [getGo, hs, hg]
        by_cases hk2 : k2 = k
        · subst hk2
          have hss : s2 = s := by rw [hs] at hs2; cases hs2; rfl
          subst hss
          rw [ihv k2 ⟨s2.key, s2.dflt, g w, s2.setter, some g⟩
            (assocGet_assocSet_self cfg.settings k2 _)]
          rw [if_neg hkn, if_pos (List.mem_cons_self k2 keys), hg]
        · rw [ihv k2 s2 (by
            show assocGet (assocSet cfg.settings k
              (⟨s.key, s.dflt, g w, s.setter, some g⟩ : Setting σ)) k2 = some s2
            rw [assocGet_assocSet_ne cfg.settings _ hk2]
            exact hs2)]
          simp only [List.mem_cons, hk2, false_or]

/-- C5 (amended): for every nonempty, duplicate-free list of declared keys,
`get(keys)` invokes the getter of each listed getter-bound setting, records
its pre-update value in the returned mapping in list order, overwrites the
setting value with the getter result, skips and omits listed settings
without a getter leaving them unchanged, leaves unlisted settings and the
external state unchanged, and raises nothing; when no listed setting has a
getter, the result mapping is empty.  (The original claim fails on the
empty list, which the source treats as the all-keys default.) -/
theorem C5_get_characterization {σ : Type} (cfg : Configuration σ) (w : σ)
    (keys : List String) (hne : ¬ keys = []) (hnd : keys.Nodup)
    (hdecl : ∀ k ∈ keys, (assocGet cfg.settings k).isSome) :
    (cfg.get (some keys) w).err = none ∧
    (cfg.get (some keys) w).w = w ∧
    (cfg.get (some keys) w).changed = keys.filterMap (fun k =>
      match assocGet cfg.settings k with
      | some s => s.getter.map (fun _ => (k, s.value))
      | none => none) ∧
    (∀ k s, assocGet cfg.settings k = some s →
      assocGet (cfg.get (some keys) w).cfg.settings k =
        some (if k ∈ keys then
          match s.getter with
          | some g => { s with value := g w }
          | none => s
        else s)) := by
  have h := getGo_characterization keys cfg w [] hnd hdecl (fun k _ => rfl)
  rw [Configuration.get, if_neg hne]
  simpa using h

/-- Witness for C5 on a concrete registry mirroring
`test_get__return_value_is_the_setting_value_before_the_get` plus a
getterless setting: no error, and the returned mapping holds the
pre-update values of the two getter-bound settings only. -/
theorem C5_get_characterization_witness :
    let cfg := (((Configuration.init Unit "/cfg").addSetting "element_1"
      (JValue.str "not got 1") none (some (fun _ => JValue.str "got 1"))).addSetting
      "element_2" (JValue.str "not got 2") none
      (some (fun _ => JValue.str "got 2"))).addSetting "no_getter"
      (JValue.str "should not have got") none none
    (cfg.get (some ["element_1", "element_2", "no_getter"]) ()).err = none ∧
      (cfg.get (some ["element_1", "element_2", "no_getter"]) ()).changed =
        [("element_1", JValue.str "not got 1"), ("element_2", JValue.str "not got 2")] := by
  intro cfg
  have h := C5_get_characterization cfg () ["element_1", "element_2", "no_getter"]
    (by decide) (by decide) (by decide)
  refine ⟨h.1, ?_⟩
  rw [h.2.2.1]
  decide

/-- C8 (counterexample): `parser.set` stores option names through the
default `optionxform` (lowercasing), so a declared key `CONFIG_FILE` (which
is not equal to `config_file` and hence not excluded) is emitted as the
file key `config_file`: the key `config_file` can appear in the output
file, contradicting the claim that it never does. -/
theorem C8_counterexample_uppercase_key :
    let cfg := (Configuration.init Unit "/cfg").addSetting "CONFIG_FILE" (JValue.int 5) none none
    (cfg.write none ()).file = some ("/cfg", [("config_file", "5")]) ∧
      "config_file" ∈ [("config_file", "5")].map Prod.fst := by
  exact ⟨rfl, by decide⟩

/-- Key sequence of the entries accumulated by the write loop: on success,
the requested declared keys other than `config_file`, lowercased, in
order, appended to the accumulator keys. -/
theorem writeGo_entries_fst {σ : Type} :
    ∀ (ks : List String) (cfg : Configuration σ) (w : σ) (acc : List (String × String)),
    (∀ k ∈ ks, (assocGet cfg.settings k).isSome) →
    (∀ k ∈ ks, ¬ k = "config_file" → assocGet acc (optionxform k) = none) →
    ((ks.filter (fun k => k != "config_file")).map optionxform).Nodup →
    ∀ cfg2 entries, writeGo cfg w acc ks = (cfg2, entries, none) →
      entries.map Prod.fst =
        acc.map Prod.fst ++ (ks.filter (fun k => k != "config_file")).map optionxform := by
  intro ks
  induction ks with
  | nil =>
    intro cfg w acc _ _ _ cfg2 entries heq
    cases heq
    simp
  | cons k ks ih =>
    intro cfg w acc hdecl hfresh hnd cfg2 entries heq
    by_cases hk : k = "config_file"
    · rw [writeGo, if_pos hk] at heq
      have hres := ih cfg w acc (fun q hq => hdecl q (List.mem_cons_of_mem k hq))
        (fun q hq => hfresh q (List.mem_cons_of_mem k hq))
        (by simpa [List.filter_cons, hk] using hnd) cfg2 entries heq
      rw [hres]
      simp [List.filter_cons, hk]
    · obtain ⟨s, hs⟩ := Option.isSome_iff_exists.mp (hdecl k (List.mem_cons_self k ks))
      have hfk : assocGet acc (optionxform k) = none := hfresh k (List.mem_cons_self k ks) hk
      have haccset : assocSet acc (optionxform k) (jsonDumps s.value) =
          acc ++ [(optionxform k, jsonDumps s.value)] := by
        exact assocSet_fresh acc (optionxform k) _ hfk
      have hfilter : (k :: ks).filter (fun q => q != "config_file") =
          k :: ks.filter (fun q => q != "config_file") := by
        simp [List.filter_cons, hk]
      have hnd2 : ((ks.filter (fun q => q != "config_file")).map optionxform).Nodup := by
        rw [hfilter] at hnd
        exact (List.nodup_cons.mp (by simpa using hnd)).2
      have hknotin : optionxform k ∉ (ks.filter (fun q => q != "config_file")).map optionxform := by
        rw [hfilter] at hnd
        exact (List.nodup_cons.mp (by simpa using hnd)).1
      have hfresh2 : ∀ (acc2 : List (String × String)), acc2 =
          acc ++ [(optionxform k, jsonDumps s.value)] →
          ∀ q ∈ ks, ¬ q = "config_file" → assocGet acc2 (optionxform q) = none := by
        intro acc2 ha q hq hqc
        subst ha
        rw [assocGet_append, hfresh q (List.mem_cons_of_mem k hq) hqc]
        have hne : ¬ optionxform k = optionxform q := by
          intro hh
          exact hknotin (hh ▸ List.mem_map_of_mem optionxform (List.mem_filter.mpr
            ⟨hq, by simpa using hqc⟩))
        simp [assocGet, hne]
      cases hg : s.getter with
      | none =>
        rw [writeGo, if_neg hk, hs] at heq
        simp only [hg] at heq
        by_cases hvb : (jsonDumps s.value).data = [] ∨ validBeforeSet (jsonDumps s.value)
        · rw [if_pos hvb] at heq
          have hres := ih cfg w (assocSet acc (optionxform k) (jsonDumps s.value))
            (fun q hq => hdecl q (List.mem_cons_of_mem k hq))
            (hfresh2 _ haccset) hnd2 cfg2 entries heq
          rw [hres, haccset, hfilter]
          simp
        · rw [if_neg hvb] at heq
          cases heq
      | some g =>
        rw [writeGo, if_neg hk, hs] at heq
        simp only [hg] at heq
        by_cases hvb : (jsonDumps (g w)).data = [] ∨ validBeforeSet (jsonDumps (g w))
        · rw [if_pos hvb] at heq
          have hdecl2 : ∀ q ∈ ks, (assocGet (assocSet cfg.settings k
              (⟨s.key, s.dflt, g w, s.setter, some g⟩ : Setting σ)) q).isSome := by
            intro q hq
            by_cases hqk : q = k
            · subst hqk
              rw [assocGet_assocSet_self]
              rfl
            · rw [assocGet_assocSet_ne cfg.settings _ hqk]
              exact hdecl q (List.mem_cons_of_mem k hq)
          have haccset2 : assocSet acc (optionxform k) (jsonDumps (g w)) =
              acc ++ [(optionxform k, jsonDumps (g w))] :=
            assocSet_fresh acc (optionxform k) _ hfk
          have hfresh3 : ∀ q ∈ ks, ¬ q = "config_file" →
              assocGet (assocSet acc (optionxform k) (jsonDumps (g w))) (optionxform q) = none := by
            intro q hq hqc
            rw [haccset2, assocGet_append, hfresh q (List.mem_cons_of_mem k hq) hqc]
            have hne : ¬ optionxform k = optionxform q := by
              intro hh
              exact hknotin (hh ▸ List.mem_map_of_mem optionxform (List.mem_filter.mpr
                ⟨hq, by simpa using hqc⟩))
            simp [assocGet, hne]
          have hres := ih _ w (assocSet acc (optionxform k) (jsonDumps (g w)))
            hdecl2 hfresh3 hnd2 cfg2 entries heq
          rw [hres, haccset2, hfilter]
          simp
        · rw [if_neg hvb] at heq
          cases heq

/-- C8 (amended): when `write()` succeeds, the produced file holds exactly
the declared settings other than `config_file`, in declaration order,
under their keys transformed by the default `optionxform` (lowercasing);
provided the lowercased non-`config_file` keys are pairwise distinct and
none of them lowercases to `config_file`, the key `config_file` does not
appear in the output file.  (The original claim fails when a declared key
such as `CONFIG_FILE` lowercases to `config_file`.) -/
theorem C8_write_file_keys {σ : Type} (cfg : Configuration σ) (w : σ) (p : String)
    (entries : List (String × String))
    (hnd : ((((cfg.settings.map Prod.fst).filter
      (fun k => k != "config_file"))).map optionxform).Nodup)
    (hnc : "config_file" ∉ ((cfg.settings.map Prod.fst).filter
      (fun k => k != "config_file")).map optionxform)
    (hw : (cfg.write none w).file = some (p, entries)) :
    entries.map Prod.fst =
      ((cfg.settings.map Prod.fst).filter (fun k => k != "config_file")).map optionxform ∧
    "config_file" ∉ entries.map Prod.fst := by
  have hwg : ∃ cfg2, writeGo cfg w [] (cfg.settings.map Prod.fst) = (cfg2, entries, none) := by
    rw [Configuration.write] at hw
    cases hm : cfg.attrGet "config_file" with
    | none => rw [hm] at hw; cases hw
    | some v =>
      rw [hm] at hw
      cases v with
      | null => cases hw
      | bool b => cases hw
      | int i => cases hw
      | str path =>
        cases hwg2 : writeGo cfg w [] (cfg.settings.map Prod.fst) with
        | mk cfg2 rest =>
          cases rest with
          | mk entries2 err =>
            rw [hwg2] at hw
            cases err with
            | none =>
              simp only [Option.some.injEq, Prod.mk.injEq] at hw
              refine ⟨cfg2, ?_⟩
              rw [hw.2]
            | some e => cases hw
  obtain ⟨cfg2, hwg⟩ := hwg
  have hdecl : ∀ k ∈ cfg.settings.map Prod.fst, (assocGet cfg.settings k).isSome := by
    intro k hk
    rw [Option.isSome_iff_ne_none]
    intro hh
    exact (assocGet_eq_none cfg.settings k).mp hh hk
  have h := writeGo_entries_fst (cfg.settings.map Prod.fst) cfg w []
    hdecl (fun k _ _ => rfl) hnd cfg2 entries hwg
  rw [List.map_nil, List.nil_append] at h
  exact ⟨h, by rw [h]; exact hnc⟩

/-- Witness for C8 on a concrete registry mirroring
`test_write__saves_settings_to_disk`: the file holds exactly `first` and
`second`, in declaration order, and no `config_file` key. -/
theorem C8_write_file_keys_witness :
    ([("first", "1"), ("second", "\"two\"")].map Prod.fst =
      (((((Configuration.init Unit "/cfg").addSetting "first" (JValue.int 1) none
        none).addSetting "second" (JValue.str "two") none
        none).settings.map Prod.fst).filter (fun k => k != "config_file")).map optionxform) ∧
    "config_file" ∉ [("first", "1"), ("second", "\"two\"")].map Prod.fst :=
  C8_write_file_keys
    (((Configuration.init Unit "/cfg").addSetting "first" (JValue.int 1) none
      none).addSetting "second" (JValue.str "two") none none)
    () "/cfg" [("first", "1"), ("second", "\"two\"")]
    (by decide) (by decide) rfl

/-- C9 (counterexample): after an explicit reset the next construction runs
`Configuration.__init__`, which immediately declares the distinguished
`config_file` setting, so the fresh instance does not have an empty set of
declared settings: its declared keys are exactly `[config_file]`. -/
theorem C9_counterexample_fresh_has_config_file :
    let r1 := SingletonMetaclass.call (⟨none, 0⟩ : SingletonState Unit) "/h/app_config"
    let r2 := SingletonMetaclass.call (SingletonMetaclass.reset r1.1) "/h/app_config"
    r2.2.2.settings.map Prod.fst = ["config_file"] ∧
      ¬ r2.2.2.settings.map Prod.fst = [] := by
  exact ⟨rfl, by decide⟩

/-- C9 (amended): two constructions without an intervening reset return the
identical cached instance, the second construction's arguments having no
effect; after an explicit reset the next construction returns a distinct
fresh instance (a new identity) whose only declared setting is the
distinguished `config_file`. -/
theorem C9_singleton_law {σ : Type} (st : SingletonState σ) (f1 f2 f3 : String)
    (hwf : st.wfB = true) :
    ((SingletonMetaclass.call (SingletonMetaclass.call st f1).1 f2).2.1 =
        (SingletonMetaclass.call st f1).2.1 ∧
      (SingletonMetaclass.call (SingletonMetaclass.call st f1).1 f2).2.2 =
        (SingletonMetaclass.call st f1).2.2) ∧
    ¬ (SingletonMetaclass.call
        (SingletonMetaclass.reset (SingletonMetaclass.call st f1).1) f3).2.1 =
      (SingletonMetaclass.call st f1).2.1 ∧
    (SingletonMetaclass.call
        (SingletonMetaclass.reset (SingletonMetaclass.call st f1).1) f3).2.2.settings.map
      Prod.fst = ["config_file"] := by
  cases st with
  | mk inst nextId =>
    cases inst with
    | none =>
      refine ⟨⟨rfl, rfl⟩, ?_, rfl⟩
      show ¬ nextId + 1 = nextId
      omega
    | some pr =>
      cases pr with
      | mk i c =>
        have hlt : i < nextId := by
          simpa [SingletonState.wfB] using hwf
        refine ⟨⟨rfl, rfl⟩, ?_, rfl⟩
        show ¬ nextId = i
        omega

/-- Witness for C9 starting from the empty singleton state. -/
theorem C9_singleton_law_witness :
    ((SingletonMetaclass.call (SingletonMetaclass.call
        (⟨none, 0⟩ : SingletonState Unit) "/h/a").1 "/h/b").2.1 =
      (SingletonMetaclass.call (⟨none, 0⟩ : SingletonState Unit) "/h/a").2.1 ∧
      (SingletonMetaclass.call (SingletonMetaclass.call
        (⟨none, 0⟩ : SingletonState Unit) "/h/a").1 "/h/b").2.2 =
      (SingletonMetaclass.call (⟨none, 0⟩ : SingletonState Unit) "/h/a").2.2) ∧
    ¬ (SingletonMetaclass.call (SingletonMetaclass.reset
        (SingletonMetaclass.call (⟨none, 0⟩ : SingletonState Unit) "/h/a").1) "/h/c").2.1 =
      (SingletonMetaclass.call (⟨none, 0⟩ : SingletonState Unit) "/h/a").2.1 ∧
    (SingletonMetaclass.call (SingletonMetaclass.reset
        (SingletonMetaclass.call (⟨none, 0⟩ : SingletonState Unit) "/h/a").1) "/h/c").2.2.settings.map
      Prod.fst = ["config_file"] :=
  C9_singleton_law (⟨none, 0⟩ : SingletonState Unit) "/h/a" "/h/b" "/h/c" (by decide)

/-- Membership after a dict write: every stored pair is the written pair or
one of the original pairs. -/
theorem mem_assocSet {α : Type} {k : String} {v : α} {q : String × α} :
    ∀ {l : List (String × α)}, q ∈ assocSet l k v → q = (k, v) ∨ q ∈ l := by
  intro l
  induction l with
  | nil =>
    intro h
    rw [assocSet] at h
    exact Or.inl (List.mem_singleton.mp h)
  | cons p r ih =>
    intro h
    obtain ⟨k2, v2⟩ := p
    rw [assocSet] at h
    by_cases hp : k2 = k
    · rw [if_pos hp] at h
      rcases List.mem_cons.mp h with he | hm
      · exact Or.inl he
      · exact Or.inr (List.mem_cons_of_mem _ hm)
    · rw [if_neg hp] at h
      rcases List.mem_cons.mp h with he | hm
      · rw [he]
        exact Or.inr (List.mem_cons_self _ r)
      · rcases ih hm with h1 | h2
        · exact Or.inl h1
        · exact Or.inr (List.mem_cons_of_mem _ h2)

/-- The keys of the entry list built by serializing a list of declared
keys: each key contributes its lowercased form, in order. -/
theorem writeEntries_map_fst {σ : Type} (cfg : Configuration σ) :
    ∀ flt : List String, (∀ k ∈ flt, (assocGet cfg.settings k).isSome) →
    (flt.filterMap (fun k => (assocGet cfg.settings k).map
      (fun s => (optionxform k, jsonDumps s.value)))).map Prod.fst = flt.map optionxform := by
  intro flt
  induction flt with
  | nil => intro _; rfl
  | cons k r ih =>
    intro h
    obtain ⟨s, hs⟩ := Option.isSome_iff_exists.mp (h k (List.mem_cons_self k r))
    simp only [List.filterMap_cons, hs, Option.map_some]
    simp [ih (fun q hq => h q (List.mem_cons_of_mem k hq))]

/-- On a registry without bound getters whose serialized values are
percent-free, the write loop succeeds, leaves the registry untouched, and
appends exactly one entry per non-`config_file` key it was asked to
process: the lowercased key paired with the `json.dumps` encoding of the
stored value, in order. -/
theorem writeGo_hookfree {σ : Type} :
    ∀ (ks : List String) (cfg : Configuration σ) (w : σ) (acc : List (String × String)),
    (∀ k ∈ ks, ∀ s, assocGet cfg.settings k = some s →
      s.getter = none ∧ '%' ∉ (jsonDumps s.value).data) →
    (∀ k ∈ ks, ¬ k = "config_file" → assocGet acc (optionxform k) = none) →
    ((ks.filter (fun k => k != "config_file")).map optionxform).Nodup →
    writeGo cfg w acc ks =
      (cfg, acc ++ (ks.filter (fun k => k != "config_file")).filterMap
        (fun k => (assocGet cfg.settings k).map
          (fun s => (optionxform k, jsonDumps s.value))), none) := by
  intro ks
  induction ks with
  | nil =>
    intro cfg w acc _ _ _
    simp [writeGo]
  | cons k ks ih =>
    intro cfg w acc hhk hfresh hnd
    by_cases hk : k = "config_file"
    · rw [writeGo, if_pos hk]
      rw [ih cfg w acc (fun q hq => hhk q (List.mem_cons_of_mem k hq))
        (fun q hq => hfresh q (List.mem_cons_of_mem k hq))
        (by simpa [List.filter_cons, hk] using hnd)]
      simp [List.filter_cons, hk]
    · have hfilter : (k :: ks).filter (fun q => q != "config_file") =
          k :: ks.filter (fun q => q != "config_file") := by
        simp [List.filter_cons, hk]
      have hnd2 : ((ks.filter (fun q => q != "config_file")).map optionxform).Nodup := by
        rw [hfilter] at hnd
        exact (List.nodup_cons.mp (by simpa using hnd)).2
      have hknotin : optionxform k ∉
          (ks.filter (fun q => q != "config_file")).map optionxform := by
        rw [hfilter] at hnd
        exact (List.nodup_cons.mp (by simpa using hnd)).1
      cases hs : assocGet cfg.settings k with
      | none =>
        have hstep : writeGo cfg w acc (k :: ks) = writeGo cfg w acc ks := by
          simp only [writeGo, hs]
          rw [if_neg hk]
        rw [hstep, ih cfg w acc (fun q hq => hhk q (List.mem_cons_of_mem k hq))
          (fun q hq => hfresh q (List.mem_cons_of_mem k hq)) hnd2]
        rw [hfilter]
        simp [List.filterMap_cons, hs]
      | some s =>
        obtain ⟨hg, hpc⟩ := hhk k (List.mem_cons_self k ks) s hs
        have hvalid : validBeforeSet (jsonDumps s.value) = true :=
          validBeforeSet_of_not_mem hpc
        have hfk : assocGet acc (optionxform k) = none :=
          hfresh k (List.mem_cons_self k ks) hk
        have haccset : assocSet acc (optionxform k) (jsonDumps s.value) =
            acc ++ [(optionxform k, jsonDumps s.value)] :=
          assocSet_fresh acc (optionxform k) _ hfk
        have hfresh2 : ∀ q ∈ ks, ¬ q = "config_file" →
            assocGet (assocSet acc (optionxform k) (jsonDumps s.value)) (optionxform q) =
              none := by
          intro q hq hqc
          rw [haccset, assocGet_append, hfresh q (List.mem_cons_of_mem k hq) hqc]
          have hne : ¬ optionxform k = optionxform q := by
            intro hh
            exact hknotin (hh ▸ List.mem_map_of_mem optionxform (List.mem_filter.mpr
              ⟨hq, by simpa using hqc⟩))
          simp [assocGet, hne]
        have hstep : writeGo cfg w acc (k :: ks) =
            writeGo cfg w (assocSet acc (optionxform k) (jsonDumps s.value)) ks := by
          simp only [writeGo, hs, hg]
          rw [if_neg hk, if_pos (Or.inr hvalid)]
        rw [hstep, ih cfg w (assocSet acc (optionxform k) (jsonDumps s.value))
          (fun q hq => hhk q (List.mem_cons_of_mem k hq)) hfresh2 hnd2]
        rw [haccset, hfilter]
        simp [List.filterMap_cons, hs]

/-- Reading a file whose raw entries are all interpolation-free and
JSON-decodable into a registry without bound setters: the read succeeds,
leaves the external state alone, and each declared setting ends up holding
the decoded file value stored under its lowercased key, keeping its old
value when the file has no such key. -/
theorem readGo_loads {σ : Type} (entries : List (String × String))
    (hent : ∀ x raw, assocGet entries x = some raw →
      interpValue entries raw = Except.ok raw ∧ (jsonLoads raw).isSome) :
    ∀ (ks : List String) (cfg2 : Configuration σ) (w : σ),
    (∀ q ∈ cfg2.settings, q.2.setter = none) →
    (readGo (some entries) cfg2 w ks).err = none ∧
    (readGo (some entries) cfg2 w ks).w = w ∧
    ∀ k s, assocGet cfg2.settings k = some s →
      assocGet (readGo (some entries) cfg2 w ks).cfg.settings k =
        some (if k ∈ ks then
          (match assocGet entries (optionxform k) with
           | some raw =>
             (match jsonLoads raw with
              | some v => { s with value := v }
              | none => s)
           | none => s)
          else s) := by
  intro ks
  induction ks with
  | nil =>
    intro cfg2 w _
    refine ⟨rfl, rfl, ?_⟩
    intro k s hs
    rw [if_neg (List.not_mem_nil k)]
    exact hs
  | cons k ks ih =>
    intro cfg2 w hset
    cases hs : assocGet cfg2.settings k with
    | none =>
      have hstep : readGo (some entries) cfg2 w (k :: ks) =
          readGo (some entries) cfg2 w ks := by
        simp only [readGo, hs]
      obtain ⟨he, hw, hv⟩ := ih cfg2 w hset
      rw [hstep]
      refine ⟨he, hw, ?_⟩
      intro k2 s2 hs2
      have hne : ¬ k2 = k := by
        intro hh
        rw [hh, hs] at hs2
        cases hs2
      have hmem : (k2 ∈ k :: ks) ↔ (k2 ∈ ks) := by simp [List.mem_cons, hne]
      rw [hv k2 s2 hs2]
      exact congrArg some (if_congr hmem.symm rfl rfl)
    | some s =>
      have hsetter : s.setter = none := hset (k, s) (assocGet_mem hs)
      cases hr : assocGet entries (optionxform k) with
      | none =>
        have hstep : readGo (some entries) cfg2 w (k :: ks) =
            readGo (some entries) cfg2 w ks := by
          simp only [readGo, hs, hr]
        obtain ⟨he, hw, hv⟩ := ih cfg2 w hset
        rw [hstep]
        refine ⟨he, hw, ?_⟩
        intro k2 s2 hs2
        by_cases hk2 : k2 = k
        · subst hk2
          have hse := Option.some.inj (hs.symm.trans hs2)
          subst hse
          rw [hv k2 s hs]
          simp only [hr]
          simp [List.mem_cons]
        · have hmem : (k2 ∈ k :: ks) ↔ (k2 ∈ ks) := by simp [List.mem_cons, hk2]
          rw [hv k2 s2 hs2]
          exact congrArg some (if_congr hmem.symm rfl rfl)
      | some raw =>
        obtain ⟨hi, hjs⟩ := hent (optionxform k) raw hr
        obtain ⟨v, hj⟩ := Option.isSome_iff_exists.mp hjs
        have hstep : readGo (some entries) cfg2 w (k :: ks) =
            readGo (some entries)
              { cfg2 with settings := assocSet cfg2.settings k { s with value := v } }
              w ks := by
          simp only [readGo, hs, hr, hi, hj, hsetter]
        have hset2 : ∀ q ∈ ({ cfg2 with
            settings := assocSet cfg2.settings k { s with value := v } } :
              Configuration σ).settings, q.2.setter = none := by
          intro q hq
          rcases mem_assocSet hq with he2 | hm
          · rw [he2]
            exact hsetter
          · exact hset q hm
        obtain ⟨he, hw, hv⟩ := ih
          { cfg2 with settings := assocSet cfg2.settings k { s with value := v } } w hset2
        rw [hstep]
        refine ⟨he, hw, ?_⟩
        intro k2 s2 hs2
        by_cases hk2 : k2 = k
        · subst hk2
          have hse := Option.some.inj (hs.symm.trans hs2)
          subst hse
          have hlook : assocGet (assocSet cfg2.settings k2 { s with value := v }) k2 =
              some { s with value := v } := assocGet_assocSet_self cfg2.settings k2 _
          rw [hv k2 { s with value := v } hlook]
          simp only [hr, hj]
          simp [List.mem_cons]
        · have hlook : assocGet (assocSet cfg2.settings k { s with value := v }) k2 =
              assocGet cfg2.settings k2 := assocGet_assocSet_ne cfg2.settings _ hk2
          rw [hv k2 s2 (by rw [hlook]; exact hs2)]
          have hmem : (k2 ∈ k :: ks) ↔ (k2 ∈ ks) := by simp [List.mem_cons, hk2]
          exact congrArg some (if_congr hmem.symm rfl rfl)

/-- C6 (counter-evidence): the round-trip law fails for values whose JSON
encoding contains a percent sign, although such values are representable
in the encoding: the `before_set` check of `parser.set` rejects the
serialized text, `write()` raises `ValueError`, and no file is produced,
so reading back reproduces nothing. -/
theorem C6_counterexample_percent_value :
    (((Configuration.init Unit "/home/user/.config/app").addSetting "motd"
        (JValue.str "100%") none none).write none ()).err =
      some "ValueError: invalid interpolation syntax" ∧
    (((Configuration.init Unit "/home/user/.config/app").addSetting "motd"
        (JValue.str "100%") none none).write none ()).file = none :=
  ⟨rfl, rfl⟩

/-- C6 (amended): restricted round-trip law.  For a registry whose declared
settings carry no hooks and whose stored values serialize without a percent
sign (the `before_set` check rejects a percent, see the counterexample),
with lowercased declared keys pairwise distinct and a string
`config_file`: `write()` succeeds at the config-file path without touching
the registry, and a `read()` of the produced entries into a registry with
the same declared keys and no bound setters succeeds, preserves the
external state, and restores the written value of every non-`config_file`
setting. -/
theorem C6_roundtrip {σ : Type} (cfg cfg2 : Configuration σ) (w w2 : σ) (p : String)
    (hlow : ((cfg.settings.map Prod.fst).map optionxform).Nodup)
    (hcf : cfg.attrGet "config_file" = some (JValue.str p))
    (hhook : ∀ q ∈ cfg.settings, q.2.getter = none)
    (hpc : ∀ q ∈ cfg.settings, '%' ∉ (jsonDumps q.2.value).data)
    (hkeys : cfg2.settings.map Prod.fst = cfg.settings.map Prod.fst)
    (hsett : ∀ q ∈ cfg2.settings, q.2.setter = none) :
    ∃ entries,
      cfg.write none w = ⟨cfg, some (p, entries), none⟩ ∧
      (cfg2.read (some entries) w2).err = none ∧
      (cfg2.read (some entries) w2).w = w2 ∧
      ∀ k s, ¬ k = "config_file" → assocGet cfg.settings k = some s →
        (assocGet (cfg2.read (some entries) w2).cfg.settings k).map
          (fun s2 => s2.value) = some s.value := by
  have hdecl : ∀ k ∈ cfg.settings.map Prod.fst, (assocGet cfg.settings k).isSome := by
    intro k hk
    cases hq : assocGet cfg.settings k with
    | none => exact absurd hk ((assocGet_eq_none _ _).mp hq)
    | some s => rfl
  have h3 : (((cfg.settings.map Prod.fst).filter
      (fun q => q != "config_file")).map optionxform).Nodup := by
    have hsub : ((cfg.settings.map Prod.fst).filter
        (fun q => q != "config_file")).Sublist (cfg.settings.map Prod.fst) :=
      List.filter_sublist _
    exact List.Nodup.sublist (hsub.map optionxform) hlow
  have h1 : ∀ k ∈ cfg.settings.map Prod.fst, ∀ s, assocGet cfg.settings k = some s →
      s.getter = none ∧ '%' ∉ (jsonDumps s.value).data := by
    intro k _ s hsk
    exact ⟨hhook (k, s) (assocGet_mem hsk), hpc (k, s) (assocGet_mem hsk)⟩
  have h2 : ∀ k ∈ cfg.settings.map Prod.fst, ¬ k = "config_file" →
      assocGet ([] : List (String × String)) (optionxform k) = none := by
    intro k _ _
    rfl
  have hwgo := writeGo_hookfree (cfg.settings.map Prod.fst) cfg w [] h1 h2 h3
  rw [List.nil_append] at hwgo
  obtain ⟨E, hE⟩ : ∃ E, ((cfg.settings.map Prod.fst).filter
      (fun k => k != "config_file")).filterMap
      (fun k => (assocGet cfg.settings k).map
        (fun s => (optionxform k, jsonDumps s.value))) = E := ⟨_, rfl⟩
  rw [hE] at hwgo
  have hEdecl : ∀ k ∈ (cfg.settings.map Prod.fst).filter (fun q => q != "config_file"),
      (assocGet cfg.settings k).isSome :=
    fun k hk => hdecl k (List.mem_of_mem_filter hk)
  have hEfst : E.map Prod.fst =
      ((cfg.settings.map Prod.fst).filter (fun q => q != "config_file")).map optionxform := by
    rw [← hE]
    exact writeEntries_map_fst cfg _ hEdecl
  have hEnodup : (E.map Prod.fst).Nodup := by
    rw [hEfst]
    exact h3
  have hent : ∀ x raw, assocGet E x = some raw →
      interpValue E raw = Except.ok raw ∧ (jsonLoads raw).isSome := by
    intro x raw hxr
    have hmem := assocGet_mem hxr
    rw [← hE, List.mem_filterMap] at hmem
    obtain ⟨k0, hk0, hf⟩ := hmem
    cases hs0 : assocGet cfg.settings k0 with
    | none =>
      rw [hs0] at hf
      cases hf
    | some s0 =>
      rw [hs0] at hf
      simp at hf
      obtain ⟨hx0, hraw⟩ := hf
      subst hraw
      constructor
      · exact interpValue_id E (hpc (k0, s0) (assocGet_mem hs0))
      · rw [jsonLoads_jsonDumps]
        rfl
  obtain ⟨he, hw2, hv⟩ := readGo_loads E hent (cfg2.settings.map Prod.fst) cfg2 w2 hsett
  refine ⟨E, ?_, he, hw2, ?_⟩
  · rw [Configuration.write, hcf, hwgo]
  · intro k s hkne hs
    have hkmem : k ∈ cfg.settings.map Prod.fst :=
      List.mem_map_of_mem Prod.fst (assocGet_mem hs)
    have hk2mem : k ∈ cfg2.settings.map Prod.fst := by
      rw [hkeys]
      exact hkmem
    obtain ⟨s2, hs2⟩ : ∃ s2, assocGet cfg2.settings k = some s2 := by
      cases hq : assocGet cfg2.settings k with
      | none => exact absurd hk2mem ((assocGet_eq_none _ _).mp hq)
      | some s2 => exact ⟨s2, rfl⟩
    have hEk : assocGet E (optionxform k) = some (jsonDumps s.value) := by
      have hmemE : (optionxform k, jsonDumps s.value) ∈ E := by
        rw [← hE]
        apply List.mem_filterMap.mpr
        refine ⟨k, List.mem_filter.mpr ⟨hkmem, by simpa using hkne⟩, ?_⟩
        rw [hs]
        rfl
      exact assocGet_of_nodup_mem hEnodup hmemE
    have hvk := hv k s2 hs2
    rw [Configuration.read, hvk, if_pos hk2mem]
    simp [hEk, jsonLoads_jsonDumps]


/-- Witness for C6: a registry at path `/h/f` declaring `alpha := 1` and
`beta := "two"` with no hooks; writing succeeds and reading the produced
entries back restores the value of `alpha`. -/
theorem C6_roundtrip_witness :
    ∃ entries,
      Configuration.write (Configuration.addSetting (Configuration.addSetting
      (Configuration.init Unit "/h/f") "alpha" (JValue.int 1) none none)
      "beta" (JValue.str "two") none none) none () =
        ⟨(Configuration.addSetting (Configuration.addSetting
      (Configuration.init Unit "/h/f") "alpha" (JValue.int 1) none none)
      "beta" (JValue.str "two") none none), some ("/h/f", entries), none⟩ ∧
      (Configuration.read (Configuration.addSetting (Configuration.addSetting
      (Configuration.init Unit "/h/f") "alpha" (JValue.int 1) none none)
      "beta" (JValue.str "two") none none) (some entries) ()).err = none ∧
      (assocGet (Configuration.read (Configuration.addSetting (Configuration.addSetting
      (Configuration.init Unit "/h/f") "alpha" (JValue.int 1) none none)
      "beta" (JValue.str "two") none none) (some entries) ()).cfg.settings
          "alpha").map (fun s2 => s2.value) = some (JValue.int 1) := by
  have hL : ((Configuration.addSetting (Configuration.addSetting
      (Configuration.init Unit "/h/f") "alpha" (JValue.int 1) none none)
      "beta" (JValue.str "two") none none)).settings =
      [("config_file", ⟨"config_file", JValue.str "/h/f", JValue.str "/h/f", none, none⟩),
       ("alpha", ⟨"alpha", JValue.int 1, JValue.int 1, none, none⟩),
       ("beta", ⟨"beta", JValue.str "two", JValue.str "two", none, none⟩)] := rfl
  obtain ⟨E, hA, hB, hC, hD⟩ := C6_roundtrip (Configuration.addSetting (Configuration.addSetting
      (Configuration.init Unit "/h/f") "alpha" (JValue.int 1) none none)
      "beta" (JValue.str "two") none none) (Configuration.addSetting (Configuration.addSetting
      (Configuration.init Unit "/h/f") "alpha" (JValue.int 1) none none)
      "beta" (JValue.str "two") none none) () () "/h/f"
    (by decide) rfl
    (by
      rw [hL]
      intro q hq
      simp only [List.mem_cons] at hq
      rcases hq with rfl | rfl | rfl | hq
      · rfl
      · rfl
      · rfl
      · cases hq)
    (by
      rw [hL]
      intro q hq
      simp only [List.mem_cons] at hq
      rcases hq with rfl | rfl | rfl | hq
      · decide
      · decide
      · decide
      · cases hq)
    rfl
    (by
      rw [hL]
      intro q hq
      simp only [List.mem_cons] at hq
      rcases hq with rfl | rfl | rfl | hq
      · rfl
      · rfl
      · rfl
      · cases hq)
  refine ⟨E, hA, hB, ?_⟩
  have hval := hD "alpha" (⟨"alpha", JValue.int 1, JValue.int 1, none, none⟩ : Setting Unit)
    (by decide) rfl
  exact hval
